import Mathlib

/-!
Verification of the `bft_simulation` repository (a discrete-event simulator for
BFT replication protocols) against its natural-language specification.

The development shallowly embeds the Rust source:

* `src/src/time.rs` (and its twin `src/pbft_simulation/src/simulation/time.rs`):
  the virtual clock and its reversed `Ord` instance;
* `src/src/simulation/mod.rs`: `Simulation::update_time`;
* `src/src/node/pbft/state.rs`: the PBFT replica state machine;
* `src/src/node/zyzzyva/state.rs`: the Zyzzyva replica state machine.

Modelling conventions:

* Rust machine integers (`u32`, `u64`, `usize`) are modelled as `Nat`.  All
  arithmetic performed by the embedded code (small divisions, increments of a
  sequence counter, millisecond sums) stays far below the respective bounds,
  so wrap-around never matters for the verified properties.
* A Rust `HashSet` is modelled as a duplicate-free `List` with membership-
  checked insertion (`hsInsert`); `len` becomes `List.length`.  Only
  cardinality, membership and structural-equality deduplication of the sets
  are observable in the source, all of which the list model reproduces.
* A Rust `HashMap<u32, V>` is modelled as a function `Nat → Option V` with
  pointwise insertion and removal.
* A Rust function that can `panic` is modelled with an `Option` result where
  `none` is the panic; `Option<Output>` results of the source become the
  second component of the returned pair.
* `log_result` writes a line to the result file and touches no program state;
  it is therefore dropped from the state embedding.  Where a claim speaks
  about emitted result records, a separate projection function (clearly
  named `..._records`) mirrors the `log_result` calls of the handler.
-/

namespace BFTSim

/-- Insertion into a `HashSet` modelled as a duplicate-free list: inserting an
element that is already present leaves the set unchanged. -/
def hsInsert {α : Type} [DecidableEq α] (l : List α) (x : α) : List α :=
  if x ∈ l then l else x :: l

/-- `HashSet::from_iter`: build a set from a list, deduplicating. -/
def hsOfList {α : Type} [DecidableEq α] (l : List α) : List α :=
  l.foldl hsInsert []

/-- `HashMap::insert` on the function model of a map. -/
def mapInsert {α : Type} (m : Nat → Option α) (k : Nat) (v : α) : Nat → Option α :=
  fun k' => if k' = k then some v else m k'

/-- `HashMap::remove` on the function model of a map. -/
def mapRemove {α : Type} (m : Nat → Option α) (k : Nat) : Nat → Option α :=
  fun k' => if k' = k then none else m k'

/-! ## The virtual clock (`src/src/time.rs`)

`Time` wraps a millisecond counter.  Its `Ord` instance is hand written in the
source with the comment "We have to reverse the ordering, because the binary
tree sorts with max first". -/

/-- `Time` from `src/src/time.rs` (identical in
`src/pbft_simulation/src/simulation/time.rs`). -/
structure Time where
  milli_seconds : Nat
deriving DecidableEq, Repr

/-- The hand-written `impl Ord for Time`:

    if self.milli_seconds.ge(&other.milli_seconds) { Ordering::Less }
    else if self.milli_seconds.le(&other.milli_seconds) { Ordering::Greater }
    else { Ordering::Equal }
-/
def Time.cmp (a b : Time) : Ordering :=
  if b.milli_seconds ≤ a.milli_seconds then Ordering.lt
  else if a.milli_seconds ≤ b.milli_seconds then Ordering.gt
  else Ordering.eq

/-- `Time::add_milli`. -/
def Time.add_milli (t : Time) (m : Nat) : Time :=
  ⟨t.milli_seconds + m⟩

/-! ## `Simulation::update_time` (`src/src/simulation/mod.rs`, lines 167-173)

    fn update_time(&mut self, time: Time) {
        if time > self.time {
            panic!("The simulation handled an event that was before its current time!");
        }
        self.time = time;
    }

The `>` is the reversed comparator: `time > self.time` holds exactly when
`Time::cmp(time, self.time) == Ordering::Greater`.  `none` models the panic;
`some t` models the assignment `self.time = t`. -/
def Simulation.update_time (self_time : Time) (time : Time) : Option Time :=
  if Time.cmp time self_time = Ordering.gt then none else some time

/-! ## PBFT messages (`src/src/pbft/messages.rs`) -/

namespace PBFT

/-- `ClientRequest` of `src/src/pbft/messages.rs`. -/
structure ClientRequest where
  operation : Nat
  sender_id : Nat
deriving DecidableEq, Repr

/-- `ClientResponse`. -/
structure ClientResponse where
  result : Nat
  sender_id : Nat
deriving DecidableEq, Repr

/-- `PrePrepareMessage`. -/
structure PrePrepareMessage where
  c_req : ClientRequest
  view : Nat
  seq_number : Nat
  sender_id : Nat
deriving DecidableEq, Repr

/-- `PrepareMessage`. -/
structure PrepareMessage where
  c_req : ClientRequest
  view : Nat
  seq_number : Nat
  sender_id : Nat
deriving DecidableEq, Repr

/-- `CommitMessage`. -/
structure CommitMessage where
  c_req : ClientRequest
  view : Nat
  seq_number : Nat
  sender_id : Nat
deriving DecidableEq, Repr

/-- `PBFTMessage`. -/
inductive PBFTMessage where
  | ClientRequest (m : ClientRequest)
  | ClientResponse (m : ClientResponse)
  | PrePrepare (m : PrePrepareMessage)
  | Prepare (m : PrepareMessage)
  | Commit (m : CommitMessage)
deriving DecidableEq, Repr

/-! ## PBFT replica state (`src/src/node/pbft/state.rs`) -/

/-- `Output = Vec<(u32, PBFTMessage)>`: pairs of recipient id and message. -/
abbrev Output := List (Nat × PBFTMessage)

/-- `create_peer_broadcast_output`: address `msg_out` to every peer. -/
def create_peer_broadcast_output (msg_out : PBFTMessage) (peers : List Nat) : Output :=
  peers.map (fun id => (id, msg_out))

/-- `PrepareQuorumMessage`: the messages allowed in the prepare-quorum set. -/
inductive PrepareQuorumMessage where
  | PrePrepareMessage (m : PrePrepareMessage)
  | PrepareMessage (m : PrepareMessage)
deriving DecidableEq, Repr

/-- `ReplicaRole`. -/
inductive ReplicaRole where
  | Primary
  | Backup
deriving DecidableEq, Repr

/-- `LogEntry` of `src/src/node/pbft/state.rs`. -/
structure LogEntry where
  view : Nat
  seq_number : Nat
  client_request : ClientRequest
  prepare_quorum : List PrepareQuorumMessage
  commit_quorum : List CommitMessage
  prepared : Bool
  committed_local : Bool
deriving DecidableEq, Repr

/-- `LogEntry::new`. -/
def LogEntry.new (view seq_number : Nat) (client_request : ClientRequest) : LogEntry :=
  { view := view
    seq_number := seq_number
    client_request := client_request
    prepare_quorum := []
    commit_quorum := []
    committed_local := false
    prepared := false }

/-- `LogEntry::has_commit_quorum_of`: `commit_quorum.len() >= quorum_size`. -/
def LogEntry.has_commit_quorum_of (e : LogEntry) (quorum_size : Nat) : Bool :=
  decide (quorum_size ≤ e.commit_quorum.length)

/-- `LogEntry::has_pre_prepare_message`: the prepare-quorum set holds at least
one `PrePrepare`. -/
def LogEntry.has_pre_prepare_message (e : LogEntry) : Bool :=
  e.prepare_quorum.any (fun m =>
    match m with
    | PrepareQuorumMessage.PrePrepareMessage _ => true
    | _ => false)

/-- `LogEntry::has_prepare_quorum_of`. -/
def LogEntry.has_prepare_quorum_of (e : LogEntry) (quorum_size : Nat) : Bool :=
  e.has_pre_prepare_message && decide (quorum_size ≤ e.prepare_quorum.length)

/-- `ReplicaState` of `src/src/node/pbft/state.rs`. -/
structure ReplicaState where
  id : Nat
  log : Nat → Option LogEntry
  cl_reqs : List Nat
  num_of_nodes : Nat
  current_view : Nat
  next_seq_num : Nat
  last_commited_index : Nat
  role : ReplicaRole
  peers : List Nat
  quorum_size : Nat

/-- The record built by `ReplicaState::new` once the `num_of_nodes < 4` panic
guard has been passed.  `f = nn / 3 + nn % 3 - 1` is the formula of the
source (line 137); `initial_view = 1`. -/
def ReplicaState.init (id num_of_nodes : Nat) : ReplicaState :=
  let nn := num_of_nodes
  let f := nn / 3 + nn % 3 - 1
  let initial_view := 1
  { id := id
    num_of_nodes := num_of_nodes
    role := if id = initial_view % num_of_nodes then ReplicaRole.Primary else ReplicaRole.Backup
    current_view := initial_view
    next_seq_num := 0
    log := fun _ => none
    cl_reqs := []
    last_commited_index := 0
    peers := (List.range' 1 num_of_nodes).filter (fun i => i ≠ id)
    quorum_size := 2 * f + 1 }

/-- `ReplicaState::new`: panics (`none`) when fewer than 4 nodes are
configured. -/
def ReplicaState.new (id num_of_nodes : Nat) : Option ReplicaState :=
  if num_of_nodes < 4 then none else some (ReplicaState.init id num_of_nodes)

/-- `ReplicaState::curr_primary`. -/
def ReplicaState.curr_primary (s : ReplicaState) : Nat :=
  s.current_view % s.num_of_nodes

/-- `ReplicaState::is_primary`. -/
def ReplicaState.is_primary (s : ReplicaState) : Bool :=
  s.role = ReplicaRole.Primary

/-- `ReplicaState::can_ignore_message`: `true` iff the message is a Prepare or
Commit whose operation has already committed locally. -/
def ReplicaState.can_ignore_message (s : ReplicaState) (message : PBFTMessage) : Bool :=
  match message with
  | PBFTMessage.Prepare m => decide (m.c_req.operation ∈ s.cl_reqs)
  | PBFTMessage.Commit m => decide (m.c_req.operation ∈ s.cl_reqs)
  | _ => false

/-- The guard of the `prepared` predicate check in
`ReplicaState::update_prediactes` (line 210):
`!entry.prepared && entry.has_prepare_quorum_of(self.quorum_size)`. -/
def prepare_guard (quorum_size : Nat) (e : LogEntry) : Bool :=
  !e.prepared && e.has_prepare_quorum_of quorum_size

/-- The guard of the `committed_local` predicate check in
`ReplicaState::update_prediactes` (line 232):
`entry.prepared && !entry.committed_local && entry.has_commit_quorum_of(self.quorum_size)`. -/
def commit_guard (quorum_size : Nat) (e : LogEntry) : Bool :=
  e.prepared && !e.committed_local && e.has_commit_quorum_of quorum_size

/-- The first half of `ReplicaState::update_prediactes` (the `prepared`
predicate check, lines 209-229): if the entry is not yet prepared but has a
prepare quorum, flip `prepared`, synthesise the own `Commit` vote, insert it
into the commit quorum, and append `Commit` broadcasts to the output. -/
def prepared_stage (quorum_size id : Nat) (peers : List Nat) (e : LogEntry)
    (out : Output) : LogEntry × Output :=
  if prepare_guard quorum_size e then
    let commit : CommitMessage :=
      { c_req := e.client_request, view := e.view, seq_number := e.seq_number, sender_id := id }
    ({ e with prepared := true, commit_quorum := hsInsert e.commit_quorum commit },
     out ++ create_peer_broadcast_output (PBFTMessage.Commit commit) peers)
  else (e, out)

/-- The second half of `ReplicaState::update_prediactes` (the `committed_local`
predicate check, lines 232-247): when the prepared entry has a commit quorum,
it is removed from the log and its operation recorded in `cl_reqs`.  `s1` is
the state whose log already holds the entry `e1` produced by
`prepared_stage`. -/
def committed_stage (quorum_size : Nat) (s1 : ReplicaState) (req_id : Nat)
    (e1 : LogEntry) : ReplicaState :=
  if commit_guard quorum_size e1 then
    { s1 with log := mapRemove s1.log req_id, cl_reqs := hsInsert s1.cl_reqs req_id }
  else s1

/-- `ReplicaState::update_prediactes` (sic, source spelling).  The source
unwraps the log lookup (a panic when the entry is missing, modelled as
`none`); every caller inserts the entry before the call.  The returned output
is `None` when empty, following `match output.len() { 0 => None, _ => ... }`. -/
def ReplicaState.update_prediactes (s : ReplicaState) (req_id : Nat) (out : Output)
    (_t : Time) : Option (ReplicaState × Option Output) :=
  match s.log req_id with
  | none => none
  | some e =>
    let st := prepared_stage s.quorum_size s.id s.peers e out
    let s1 : ReplicaState := { s with log := mapInsert s.log req_id st.1 }
    let s2 := committed_stage s.quorum_size s1 req_id st.1
    some (s2, if st.2.length = 0 then none else some st.2)

/-- `ReplicaState::handle_client_request` (lines 256-283). -/
def ReplicaState.handle_client_request (s : ReplicaState) (msg_in : ClientRequest)
    (_t : Time) : Option (ReplicaState × Option Output) :=
  if s.is_primary then
    let seq_number := s.next_seq_num + 1
    let preprepare : PrePrepareMessage :=
      { c_req := msg_in, view := s.current_view, seq_number := seq_number, sender_id := s.id }
    let entry : LogEntry :=
      { LogEntry.new s.current_view seq_number msg_in with
          prepare_quorum := hsInsert [] (PrepareQuorumMessage.PrePrepareMessage preprepare) }
    some ({ s with next_seq_num := seq_number,
                   log := mapInsert s.log msg_in.operation entry },
          some (create_peer_broadcast_output (PBFTMessage.PrePrepare preprepare) s.peers))
  else
    -- non-primaries log a warning and drop the request
    some (s, none)

/-- The local `Prepare` vote built by `handle_pre_prepare_message` from the
fields of the located (or freshly created) entry. -/
def pre_prepare_vote (s : ReplicaState) (entry0 : LogEntry) : PrepareMessage :=
  { c_req := entry0.client_request, view := entry0.view,
    seq_number := entry0.seq_number, sender_id := s.id }

/-- The entry produced by `handle_pre_prepare_message`: the incoming
PrePrepare and the local Prepare vote are inserted into the prepare-quorum
set of `entry0`. -/
def pre_prepare_entry (s : ReplicaState) (msg_in : PrePrepareMessage)
    (entry0 : LogEntry) : LogEntry :=
  let pq1 := hsInsert entry0.prepare_quorum (PrepareQuorumMessage.PrePrepareMessage msg_in)
  let pq2 := hsInsert pq1 (PrepareQuorumMessage.PrepareMessage (pre_prepare_vote s entry0))
  { entry0 with prepare_quorum := pq2 }

/-- The body of `handle_pre_prepare_message` once the entry for the request
has been located or created (`entry0`): store the updated entry, broadcast
the local Prepare to the peers, and run the predicate update. -/
def pre_prepare_body (s : ReplicaState) (msg_in : PrePrepareMessage)
    (entry0 : LogEntry) (t : Time) : Option (ReplicaState × Option Output) :=
  ReplicaState.update_prediactes
    { s with log := mapInsert s.log msg_in.c_req.operation (pre_prepare_entry s msg_in entry0) }
    msg_in.c_req.operation
    (create_peer_broadcast_output (PBFTMessage.Prepare (pre_prepare_vote s entry0)) s.peers)
    t

/-- `ReplicaState::handle_pre_prepare_message` (lines 285-323): accepted only
from the current primary; the entry is looked up, or created from the message
when absent. -/
def ReplicaState.handle_pre_prepare_message (s : ReplicaState) (msg_in : PrePrepareMessage)
    (t : Time) : Option (ReplicaState × Option Output) :=
  if s.curr_primary = msg_in.sender_id then
    match s.log msg_in.c_req.operation with
    | some e => pre_prepare_body s msg_in e t
    | none => pre_prepare_body s msg_in (LogEntry.new msg_in.view msg_in.seq_number msg_in.c_req) t
  else
    -- PrePrepare from a non-primary peer: warn and drop
    some (s, none)

/-- The entry produced by `handle_prepare_message` for an existing entry:
the Prepare is inserted into the prepare-quorum set. -/
def prepare_insert (msg_in : PrepareMessage) (e : LogEntry) : LogEntry :=
  { e with prepare_quorum :=
      hsInsert e.prepare_quorum (PrepareQuorumMessage.PrepareMessage msg_in) }

/-- The `Some` branch of `handle_prepare_message`: store the updated entry
and run the predicate update with an empty output. -/
def prepare_body (s : ReplicaState) (msg_in : PrepareMessage) (e : LogEntry)
    (t : Time) : Option (ReplicaState × Option Output) :=
  ReplicaState.update_prediactes
    { s with log := mapInsert s.log msg_in.c_req.operation (prepare_insert msg_in e) }
    msg_in.c_req.operation [] t

/-- `ReplicaState::handle_prepare_message` (lines 325-347): without an entry,
one is created from the message with the Prepare as its only quorum member
(and no predicate update runs). -/
def ReplicaState.handle_prepare_message (s : ReplicaState) (msg_in : PrepareMessage)
    (t : Time) : Option (ReplicaState × Option Output) :=
  match s.log msg_in.c_req.operation with
  | some e => prepare_body s msg_in e t
  | none =>
    let entry := prepare_insert msg_in (LogEntry.new msg_in.view msg_in.seq_number msg_in.c_req)
    some ({ s with log := mapInsert s.log msg_in.c_req.operation entry }, none)

/-- The entry produced by `handle_commit_message` for an existing entry: the
Commit is inserted into the commit-quorum set. -/
def commit_insert (msg_in : CommitMessage) (e : LogEntry) : LogEntry :=
  { e with commit_quorum := hsInsert e.commit_quorum msg_in }

/-- The `Some` branch of `handle_commit_message`. -/
def commit_body (s : ReplicaState) (msg_in : CommitMessage) (e : LogEntry)
    (t : Time) : Option (ReplicaState × Option Output) :=
  ReplicaState.update_prediactes
    { s with log := mapInsert s.log msg_in.c_req.operation (commit_insert msg_in e) }
    msg_in.c_req.operation [] t

/-- `ReplicaState::handle_commit_message` (lines 349-366). -/
def ReplicaState.handle_commit_message (s : ReplicaState) (msg_in : CommitMessage)
    (t : Time) : Option (ReplicaState × Option Output) :=
  match s.log msg_in.c_req.operation with
  | some e => commit_body s msg_in e t
  | none =>
    let entry := commit_insert msg_in (LogEntry.new msg_in.view msg_in.seq_number msg_in.c_req)
    some ({ s with log := mapInsert s.log msg_in.c_req.operation entry }, none)

/-- `ReplicaState::handle_message` (lines 162-176): short-circuit through
`can_ignore_message`, then dispatch; a `ClientResponse` panics. -/
def ReplicaState.handle_message (s : ReplicaState) (message : PBFTMessage)
    (t : Time) : Option (ReplicaState × Option Output) :=
  if s.can_ignore_message message then some (s, none)
  else
    match message with
    | PBFTMessage.ClientRequest m => s.handle_client_request m t
    | PBFTMessage.PrePrepare m => s.handle_pre_prepare_message m t
    | PBFTMessage.Prepare m => s.handle_prepare_message m t
    | PBFTMessage.Commit m => s.handle_commit_message m t
    | PBFTMessage.ClientResponse _ => none

end PBFT

/-! ## Zyzzyva messages (`src/src/node/zyzzyva/messages.rs`) -/

namespace Zyzzyva

/-- `ClientTimeout`. -/
structure ClientTimeout where
  req_id : Nat
deriving DecidableEq, Repr

/-- `ClientRequest`. -/
structure ClientRequest where
  operation : Nat
  sender_id : Nat
deriving DecidableEq, Repr

/-- `ClientRequest::new`. -/
def ClientRequest.new (operation sender_id : Nat) : ClientRequest :=
  { operation := operation, sender_id := sender_id }

/-- `OrderRequest`. -/
structure OrderRequest where
  c_req : ClientRequest
  view : Nat
  seq_number : Nat
  sender_id : Nat
deriving DecidableEq, Repr

/-- `SpeculativeResponse`. -/
structure SpeculativeResponse where
  c_req : ClientRequest
  view : Nat
  seq_number : Nat
  sender_id : Nat
deriving DecidableEq, Repr

/-- `Commit`: carries the commit certificate as a `Vec<SpeculativeResponse>`. -/
structure Commit where
  req_id : Nat
  certificate : List SpeculativeResponse
  sender_id : Nat
deriving DecidableEq, Repr

/-- `LocalCommit`. -/
structure LocalCommit where
  c_req : ClientRequest
  view : Nat
  seq_number : Nat
  sender_id : Nat
deriving DecidableEq, Repr

/-- `ZyzzyvaMessage`. -/
inductive ZyzzyvaMessage where
  | ClientRequest (m : ClientRequest)
  | ClientTimeout (m : ClientTimeout)
  | OrderRequest (m : OrderRequest)
  | SpeculativeResponse (m : SpeculativeResponse)
  | Commit (m : Commit)
  | LocalCommit (m : LocalCommit)
deriving DecidableEq, Repr

/-! ## Zyzzyva replica state (`src/src/node/zyzzyva/state.rs`) -/

/-- `CLIENT_ID = 2`. -/
def CLIENT_ID : Nat := 2

/-- `Output = Vec<(u32, ZyzzyvaMessage)>`. -/
abbrev Output := List (Nat × ZyzzyvaMessage)

/-- `create_peer_broadcast_output`. -/
def create_peer_broadcast_output (msg_out : ZyzzyvaMessage) (peers : List Nat) : Output :=
  peers.map (fun id => (id, msg_out))

/-- `Role`. -/
inductive Role where
  | Client
  | Primary
  | Backup
deriving DecidableEq, Repr

/-- `LogEntry` of `src/src/node/zyzzyva/state.rs`. -/
structure LogEntry where
  c_req : ClientRequest
  view : Nat
  seq_number : Nat
  commit_certificate : List SpeculativeResponse
  local_commits : List Nat
  speculative_execution : Bool
  committed_local : Bool
  completed : Bool
  timed_out : Bool
deriving DecidableEq, Repr

/-- `LogEntry::new`: every flag starts `false`, both sets empty. -/
def LogEntry.new (c_req : ClientRequest) (view seq_number : Nat) : LogEntry :=
  { c_req := c_req
    view := view
    seq_number := seq_number
    commit_certificate := []
    local_commits := []
    speculative_execution := false
    committed_local := false
    completed := false
    timed_out := false }

/-- `State` of `src/src/node/zyzzyva/state.rs`.  `num_of_nodes` stores the
internal replica count (the configured total minus the client). -/
structure State where
  id : Nat
  log : Nat → Option LogEntry
  cl_reqs : List Nat
  num_of_nodes : Nat
  current_view : Nat
  next_seq_num : Nat
  role : Role
  peers : List Nat
  client_id : Nat
  quorum_size : Nat
  lc_seq_num : Nat

/-- The record built by `State::new` once the `num_of_nodes < 5` panic guard
has been passed: the client is subtracted from the node count before
computing `f = nn / 3 + nn % 3 - 1` (line 93). -/
def State.init (id num_of_nodes : Nat) : State :=
  let num_of_nodes := num_of_nodes - 1
  let nn := num_of_nodes
  let f := nn / 3 + nn % 3 - 1
  { id := id
    log := fun _ => none
    num_of_nodes := num_of_nodes
    current_view := 1
    next_seq_num := 0
    cl_reqs := []
    lc_seq_num := 0
    role := if id = 1 then Role.Primary else if id = CLIENT_ID then Role.Client else Role.Backup
    client_id := CLIENT_ID
    peers := (List.range' 1 (num_of_nodes + 1)).filter (fun i => i ≠ id && i ≠ CLIENT_ID)
    quorum_size := 2 * f + 1 }

/-- `State::new`: panics (`none`) when fewer than 5 nodes are configured. -/
def State.new (id num_of_nodes : Nat) : Option State :=
  if num_of_nodes < 5 then none else some (State.init id num_of_nodes)

/-- `State::can_ignore_message` (lines 138-145). -/
def State.can_ignore_message (s : State) (message : ZyzzyvaMessage) : Bool :=
  match message with
  | ZyzzyvaMessage.LocalCommit m => decide (m.c_req.operation ∈ s.cl_reqs)
  | ZyzzyvaMessage.SpeculativeResponse m => decide (m.c_req.operation ∈ s.cl_reqs)
  | ZyzzyvaMessage.OrderRequest m => decide (m.c_req.operation ∈ s.cl_reqs)
  | _ => false

/-- `State::curr_primary`. -/
def State.curr_primary (s : State) : Nat :=
  s.current_view % s.num_of_nodes

/-- `State::gc_entry` (lines 158-164): drop the log entry and remember the
request id so later messages for it are ignored. -/
def State.gc_entry (s : State) (req_id : Nat) : State :=
  { s with log := mapRemove s.log req_id, cl_reqs := hsInsert s.cl_reqs req_id }

/-- `State::handle_local_commit` (lines 166-188).  The missing-entry branch
panics. -/
def State.handle_local_commit (s : State) (msg_in : LocalCommit)
    (_t : Time) : Option (State × Option Output) :=
  match s.log msg_in.c_req.operation with
  | some entry =>
    let entry' := { entry with local_commits := hsInsert entry.local_commits msg_in.sender_id }
    let s1 : State := { s with log := mapInsert s.log msg_in.c_req.operation entry' }
    if decide (s.quorum_size ≤ entry'.local_commits.length) && !entry'.completed then
      -- log "completed"; the assignment `entry.completed = true` is commented
      -- out in the source; the entry is garbage collected instead
      some (s1.gc_entry entry'.c_req.operation, none)
    else
      some (s1, none)
  | none => none

/-- `State::handle_client_timeout` (lines 190-221).  Non-clients panic; a
missing entry is silently skipped; branch 4.b broadcasts a `Commit` carrying a
snapshot of the commit certificate; branch 4.c only logs. -/
def State.handle_client_timeout (s : State) (msg_in : ClientTimeout)
    (_t : Time) : Option (State × Option Output) :=
  match s.role with
  | Role.Client =>
    match s.log msg_in.req_id with
    | some entry =>
      let entry' := { entry with timed_out := true }
      let s1 : State := { s with log := mapInsert s.log msg_in.req_id entry' }
      let cert_len := entry'.commit_certificate.length
      if decide (s.quorum_size ≤ cert_len) && decide (cert_len < s.peers.length) then
        -- Zyzzyva 4.b
        some (s1,
          some (create_peer_broadcast_output
            (ZyzzyvaMessage.Commit
              { req_id := msg_in.req_id, certificate := entry'.commit_certificate,
                sender_id := s.id })
            s.peers))
      else
        -- Zyzzyva 4.c: log "timed-out" when cert_len < quorum_size
        some (s1, none)
    | none => some (s, none)
  | _ => none

/-- The `log_result` side effects of `State::handle_client_timeout`, modelled
as the list of request ids for which the handler writes a `timed-out` result
record (`none` on the non-client panic). -/
def State.handle_client_timeout_records (s : State) (msg_in : ClientTimeout) :
    Option (List Nat) :=
  match s.role with
  | Role.Client =>
    match s.log msg_in.req_id with
    | some entry =>
      let cert_len := entry.commit_certificate.length
      if decide (s.quorum_size ≤ cert_len) && decide (cert_len < s.peers.length) then
        some []
      else if decide (cert_len < s.quorum_size) then
        some [msg_in.req_id]
      else
        some []
    | none => some []
  | _ => none

/-- `State::handle_client_request` (lines 223-281).  A backup panics. -/
def State.handle_client_request (s : State) (msg_in : ClientRequest)
    (_t : Time) : Option (State × Option Output) :=
  match s.role with
  | Role.Client =>
    let request := ClientRequest.new msg_in.operation s.id
    let entry := LogEntry.new request 0 0
    some ({ s with log := mapInsert s.log msg_in.operation entry },
      some [(s.curr_primary, ZyzzyvaMessage.ClientRequest request),
            (s.id, ZyzzyvaMessage.ClientTimeout { req_id := msg_in.operation })])
  | Role.Primary =>
    let seq_number := s.next_seq_num + 1
    let entry := { LogEntry.new msg_in s.current_view seq_number with
                     speculative_execution := true }
    let spec_res : SpeculativeResponse :=
      { c_req := msg_in, view := s.current_view, seq_number := seq_number, sender_id := s.id }
    let order_req : OrderRequest :=
      { c_req := msg_in, view := s.current_view, seq_number := seq_number, sender_id := s.id }
    some ({ s with next_seq_num := seq_number,
                   log := mapInsert s.log msg_in.operation entry },
      some ((CLIENT_ID, ZyzzyvaMessage.SpeculativeResponse spec_res) ::
            create_peer_broadcast_output (ZyzzyvaMessage.OrderRequest order_req) s.peers))
  | Role.Backup => none

/-- `State::handle_order_request` (lines 283-322): only backups, and only for
operations without an existing entry; everything else panics. -/
def State.handle_order_request (s : State) (msg_in : OrderRequest)
    (_t : Time) : Option (State × Option Output) :=
  match s.role with
  | Role.Backup =>
    match s.log msg_in.c_req.operation with
    | some _ => none
    | none =>
      let entry := { LogEntry.new msg_in.c_req msg_in.view msg_in.seq_number with
                       speculative_execution := true }
      let spec_res : SpeculativeResponse :=
        { c_req := msg_in.c_req, view := msg_in.view,
          seq_number := msg_in.seq_number, sender_id := s.id }
      some ({ s with log := mapInsert s.log msg_in.c_req.operation entry },
        some [(CLIENT_ID, ZyzzyvaMessage.SpeculativeResponse spec_res)])
  | _ => none

/-- `State::handle_speculative_response` (lines 324-374): client only; a
timed-out entry ignores the response; at `|cert| == num_of_nodes` the entry is
garbage collected (Zyzzyva 4.a); the handler never returns messages. -/
def State.handle_speculative_response (s : State) (msg_in : SpeculativeResponse)
    (_t : Time) : Option (State × Option Output) :=
  match s.role with
  | Role.Client =>
    match s.log msg_in.c_req.operation with
    | some entry =>
      if entry.timed_out then some (s, none)
      else
        let entry' := { entry with
          commit_certificate := hsInsert entry.commit_certificate msg_in }
        let s1 : State := { s with log := mapInsert s.log msg_in.c_req.operation entry' }
        -- log "commit_certificate" when the length reaches quorum_size
        if entry'.commit_certificate.length = s.num_of_nodes then
          -- Zyzzyva 4.a: log "completed"; `entry.completed = true` is
          -- commented out in the source
          some (s1.gc_entry entry'.c_req.operation, none)
        else
          some (s1, none)
    | none => none
  | _ => none

/-- `State::handle_commit` (lines 376-436): a client panics; with an existing
entry the certificate is replaced and the entry garbage collected; without
one, `certificate[0]` reconstructs the entry (a panic when the certificate is
empty). -/
def State.handle_commit (s : State) (msg_in : Commit)
    (_t : Time) : Option (State × Option Output) :=
  match s.role with
  | Role.Client => none
  | _ =>
    match s.log msg_in.req_id with
    | some entry =>
      let entry' := { entry with
        commit_certificate := hsOfList msg_in.certificate, committed_local := true }
      let s1 : State := { s with log := mapInsert s.log msg_in.req_id entry' }
      let lc : LocalCommit :=
        { c_req := entry'.c_req, view := entry'.view,
          seq_number := entry'.seq_number, sender_id := s.id }
      some (s1.gc_entry msg_in.req_id, some [(CLIENT_ID, ZyzzyvaMessage.LocalCommit lc)])
    | none =>
      match msg_in.certificate with
      | [] => none
      | spec_res :: _ =>
        let entry := { LogEntry.new spec_res.c_req spec_res.view spec_res.seq_number with
          commit_certificate := hsOfList msg_in.certificate, committed_local := true }
        let lc : LocalCommit :=
          { c_req := entry.c_req, view := entry.view,
            seq_number := entry.seq_number, sender_id := s.id }
        -- the `self.log.insert(msg_in.req_id, entry)` is commented out in the
        -- source: the reconstructed entry is never stored
        some (s.gc_entry msg_in.req_id, some [(CLIENT_ID, ZyzzyvaMessage.LocalCommit lc)])

/-- `State::handle_message` (lines 117-136). -/
def State.handle_message (s : State) (zyzzyva_message : ZyzzyvaMessage)
    (t : Time) : Option (State × Option Output) :=
  if s.can_ignore_message zyzzyva_message then some (s, none)
  else
    match zyzzyva_message with
    | ZyzzyvaMessage.ClientRequest m => s.handle_client_request m t
    | ZyzzyvaMessage.ClientTimeout m => s.handle_client_timeout m t
    | ZyzzyvaMessage.OrderRequest m => s.handle_order_request m t
    | ZyzzyvaMessage.SpeculativeResponse m => s.handle_speculative_response m t
    | ZyzzyvaMessage.Commit m => s.handle_commit m t
    | ZyzzyvaMessage.LocalCommit m => s.handle_local_commit m t

end Zyzzyva

/-! ## Derived notions used by the verified properties -/

/-- Extract the post-state from an optional handler result, with a fallback
for the panic case.  Used to name concrete post-states in witnesses. -/
def resState {σ ω : Type} (r : Option (σ × ω)) (dflt : σ) : σ :=
  match r with
  | some p => p.1
  | none => dflt

/-- Extract the output of an optional handler result. -/
def resOut {σ ω : Type} [Inhabited ω] (r : Option (σ × ω)) : ω :=
  match r with
  | some p => p.2
  | none => default

namespace Zyzzyva

/-- States reachable from a freshly constructed Zyzzyva node by delivering any
sequence of messages through `State::handle_message` (panicking deliveries do
not produce successor states). -/
inductive Reachable : State → Prop where
  | init (id num_of_nodes : Nat) (s : State) :
      State.new id num_of_nodes = some s → Reachable s
  | step (s : State) (m : ZyzzyvaMessage) (t : Time) (s' : State) (o : Option Output) :
      Reachable s → s.handle_message m t = some (s', o) → Reachable s'

/-- Every entry of the log has `completed = false`. -/
def completedFree (s : State) : Prop :=
  ∀ (op : Nat) (e : LogEntry), s.log op = some e → e.completed = false

end Zyzzyva

/-! ## Concrete states used by the witnesses and the counterexample -/

/-- A committed-ready PBFT log entry: prepared, with a full commit quorum of
three distinct votes. -/
def c2e : PBFT.LogEntry :=
  { view := 1, seq_number := 1, client_request := ⟨7, 0⟩,
    prepare_quorum := [],
    commit_quorum := [⟨⟨7, 0⟩, 1, 1, 1⟩, ⟨⟨7, 0⟩, 1, 1, 2⟩, ⟨⟨7, 0⟩, 1, 1, 3⟩],
    prepared := true, committed_local := false }

/-- A four node backup holding `c2e` for operation 7. -/
def c2s : PBFT.ReplicaState :=
  { PBFT.ReplicaState.init 4 4 with log := mapInsert (fun _ => none) 7 c2e }

def c2res : Option (PBFT.ReplicaState × Option PBFT.Output) :=
  c2s.update_prediactes 7 [] ⟨0⟩

def c2s' : PBFT.ReplicaState := resState c2res c2s

def c2o : Option PBFT.Output := resOut c2res

/-- A PBFT entry holding two backup Prepare votes and no PrePrepare yet. -/
def c2bE : PBFT.LogEntry :=
  { view := 1, seq_number := 1, client_request := ⟨7, 0⟩,
    prepare_quorum := [PBFT.PrepareQuorumMessage.PrepareMessage ⟨⟨7, 0⟩, 1, 1, 2⟩,
                       PBFT.PrepareQuorumMessage.PrepareMessage ⟨⟨7, 0⟩, 1, 1, 3⟩],
    commit_quorum := [], prepared := false, committed_local := false }

/-- A four node backup (id 4) holding `c2bE`; the PrePrepare from the primary
is still missing. -/
def c2bS : PBFT.ReplicaState :=
  { PBFT.ReplicaState.init 4 4 with log := mapInsert (fun _ => none) 7 c2bE }

/-- The PrePrepare for operation 7 from the primary (id 1). -/
def c2bM : PBFT.PrePrepareMessage := ⟨⟨7, 0⟩, 1, 1, 1⟩

def c2bRes : Option (PBFT.ReplicaState × Option PBFT.Output) :=
  c2bS.handle_message (PBFT.PBFTMessage.PrePrepare c2bM) ⟨0⟩

def c2bS' : PBFT.ReplicaState := resState c2bRes c2bS

def c2bO : Option PBFT.Output := resOut c2bRes

/-- The entry stored for operation 7 after the PrePrepare delivery. -/
def c2bE' : PBFT.LogEntry :=
  match c2bS'.log 7 with
  | some e => e
  | none => PBFT.LogEntry.new 0 0 ⟨0, 0⟩

/-- Counterexample state for idempotence: a fresh four node primary. -/
def c3s0 : PBFT.ReplicaState := PBFT.ReplicaState.init 1 4

/-- The client request replayed in the counterexample. -/
def c3m : PBFT.PBFTMessage := PBFT.PBFTMessage.ClientRequest ⟨7, 0⟩

/-- The state of the primary after the first delivery of `c3m`. -/
def c3s1 : PBFT.ReplicaState := resState (c3s0.handle_message c3m ⟨0⟩) c3s0

/-- A fresh four node backup used by the amended idempotence witness. -/
def c3w0 : PBFT.ReplicaState := PBFT.ReplicaState.init 4 4

/-- A Prepare vote delivered twice in the amended idempotence witness. -/
def c3mp : PBFT.PBFTMessage := PBFT.PBFTMessage.Prepare ⟨⟨7, 0⟩, 1, 1, 2⟩

def c3w1 : PBFT.ReplicaState := resState (c3w0.handle_message c3mp ⟨0⟩) c3w0

def c3w1o : Option PBFT.Output := resOut (c3w0.handle_message c3mp ⟨0⟩)


/-- A PBFT replica that has already committed operation 7 locally. -/
def c4p : PBFT.ReplicaState :=
  { PBFT.ReplicaState.init 1 4 with cl_reqs := [7] }

/-- A Zyzzyva client that has already completed operation 7. -/
def c4z : Zyzzyva.State :=
  { Zyzzyva.State.init 2 5 with cl_reqs := [7] }

/-- A Zyzzyva client log entry for operation 7 whose commit certificate holds
exactly the quorum of three speculative responses. -/
def c5e : Zyzzyva.LogEntry :=
  { Zyzzyva.LogEntry.new ⟨7, 2⟩ 1 1 with
      speculative_execution := true,
      commit_certificate := [⟨⟨7, 2⟩, 1, 1, 1⟩, ⟨⟨7, 2⟩, 1, 1, 3⟩, ⟨⟨7, 2⟩, 1, 1, 4⟩] }

/-- The five node Zyzzyva client holding `c5e` for operation 7. -/
def c5s : Zyzzyva.State :=
  { Zyzzyva.State.init 2 5 with log := mapInsert (fun _ => none) 7 c5e }

/-- The speculative response redelivered in the amended idempotence witness. -/
def c3zm : Zyzzyva.SpeculativeResponse := ⟨⟨7, 2⟩, 1, 1, 3⟩

def c3z1 : Zyzzyva.State :=
  resState (c5s.handle_message (Zyzzyva.ZyzzyvaMessage.SpeculativeResponse c3zm) ⟨0⟩) c5s

def c3z1o : Option Zyzzyva.Output :=
  resOut (c5s.handle_message (Zyzzyva.ZyzzyvaMessage.SpeculativeResponse c3zm) ⟨0⟩)

/-- A PBFT primary that has already committed operation 7 locally and holds
no log entry for it. -/
def c8s : PBFT.ReplicaState :=
  { PBFT.ReplicaState.init 1 4 with cl_reqs := [7] }

/-- The five node Zyzzyva client of the commit-safety witness: it holds an
entry for operation 7 with a three-vote commit certificate, one vote short of
the full replica count. -/
def c10s : Zyzzyva.State := c5s

def c10res : Option (Zyzzyva.State × Option Zyzzyva.Output) :=
  c10s.handle_message (Zyzzyva.ZyzzyvaMessage.ClientTimeout ⟨7⟩) ⟨0⟩

def c10s' : Zyzzyva.State := resState c10res c10s

def c10out : Zyzzyva.Output := (resOut c10res).getD []

/-! ## Helper lemmas about the set and map models -/

theorem hsInsert_of_mem {α : Type} [DecidableEq α] {l : List α} {x : α}
    (h : x ∈ l) : hsInsert l x = l := by
  simp [hsInsert, h]

theorem mem_hsInsert_self {α : Type} [DecidableEq α] (l : List α) (x : α) :
    x ∈ hsInsert l x := by
  by_cases h : x ∈ l <;> simp [hsInsert, h]

theorem mem_hsInsert_iff {α : Type} [DecidableEq α] (l : List α) (x y : α) :
    y ∈ hsInsert l x ↔ y = x ∨ y ∈ l := by
  by_cases h : x ∈ l
  · simp [hsInsert, h]
    intro hyx; subst hyx; exact h
  · simp [hsInsert, h]

theorem mapInsert_self {α : Type} {m : Nat → Option α} {k : Nat} {v : α}
    (h : m k = some v) : mapInsert m k v = m := by
  funext k'
  by_cases hk : k' = k
  · subst hk; simp [mapInsert, h]
  · simp [mapInsert, hk]

theorem mapInsert_eq {α : Type} (m : Nat → Option α) (k : Nat) (v : α) :
    mapInsert m k v k = some v := by
  simp [mapInsert]

theorem mapInsert_ne {α : Type} (m : Nat → Option α) (k : Nat) (v : α)
    {k' : Nat} (h : k' ≠ k) : mapInsert m k v k' = m k' := by
  simp [mapInsert, h]

theorem mapRemove_eq {α : Type} (m : Nat → Option α) (k : Nat) :
    mapRemove m k k = none := by
  simp [mapRemove]

theorem mapRemove_ne {α : Type} (m : Nat → Option α) (k : Nat)
    {k' : Nat} (h : k' ≠ k) : mapRemove m k k' = m k' := by
  simp [mapRemove, h]

theorem mapRemove_of_none {α : Type} {m : Nat → Option α} {k : Nat}
    (h : m k = none) : mapRemove m k = m := by
  funext k'
  by_cases hk : k' = k
  · subst hk; simp [mapRemove, h]
  · simp [mapRemove, hk]

/-! ## Helper lemmas about the reversed time comparator -/

theorem time_cmp_ne_eq (a b : Time) : Time.cmp a b ≠ Ordering.eq := by
  by_cases h : b.milli_seconds ≤ a.milli_seconds
  · simp [Time.cmp, h]
  · have h2 : a.milli_seconds ≤ b.milli_seconds :=
      Nat.le_of_lt (Nat.lt_of_not_le h)
    simp [Time.cmp, h, h2]

theorem time_cmp_eq_lt_iff (a b : Time) :
    Time.cmp a b = Ordering.lt ↔ b.milli_seconds ≤ a.milli_seconds := by
  by_cases h : b.milli_seconds ≤ a.milli_seconds
  · simp [Time.cmp, h]
  · have h2 : a.milli_seconds ≤ b.milli_seconds :=
      Nat.le_of_lt (Nat.lt_of_not_le h)
    simp [Time.cmp, h, h2]

theorem time_cmp_eq_gt_iff (a b : Time) :
    Time.cmp a b = Ordering.gt ↔ a.milli_seconds < b.milli_seconds := by
  by_cases h : b.milli_seconds ≤ a.milli_seconds
  · simp [Time.cmp, h, Nat.not_lt.mpr h]
  · have h2 : a.milli_seconds ≤ b.milli_seconds :=
      Nat.le_of_lt (Nat.lt_of_not_le h)
    simp [Time.cmp, h, h2, Nat.lt_of_not_le h]

/-! ## Claim C1 -/

/-- C1: the claim that `ReplicaState::new` sets `quorum_size = 2·⌊(n−1)/3⌋+1`
(and the analogous claim for Zyzzyva with the client subtracted first) fails
on the code: the source computes `f = n/3 + n%3 − 1`, which exceeds
`⌊(n−1)/3⌋` by one whenever `n % 3 = 2`.  At n = 5 PBFT nodes the code yields
quorum_size = 5 where the claim demands 2·⌊4/3⌋+1 = 3; a Zyzzyva cluster
configured with 6 nodes (5 replicas) likewise gets 5 instead of 3.  This
contradicts the doc comment on the `quorum_size` field of the source
("The minimal size of a quorum (2 * f + 1) s.t. f < n/3"), so the code, not
the claim, is at fault.  The theorem evaluates the embedded constructors at
the failing inputs, and at n = 4 and n = 5 where code and claim agree. -/
theorem quorum_size_formula_deviates_from_claim :
    PBFT.ReplicaState.new 1 5 = some (PBFT.ReplicaState.init 1 5) ∧
    (PBFT.ReplicaState.init 1 5).quorum_size = 5 ∧
    2 * ((5 - 1) / 3) + 1 = 3 ∧
    Zyzzyva.State.new 2 6 = some (Zyzzyva.State.init 2 6) ∧
    (Zyzzyva.State.init 2 6).quorum_size = 5 ∧
    2 * (((6 - 1) - 1) / 3) + 1 = 3 ∧
    (PBFT.ReplicaState.init 1 4).quorum_size = 3 ∧
    (Zyzzyva.State.init 2 5).quorum_size = 3 :=
  ⟨rfl, by decide, by decide, rfl, by decide, by decide, by decide, by decide⟩

/-! ## Claim C6 -/

/-- C6: the claim that `Ord for Time` is the exact reversal of the natural
order with equality preserved fails on the code: the source tests `ge`/`le`
instead of `gt`/`lt`, so `cmp` maps equal times to `Less` and never returns
`Equal` — at the failing input `a = b = Time{5}` the code yields `Less`
where the claim demands `Equal`.  Since the derived `Eq` on `Time` is
structural, this violates the documented consistency contract of `Ord`, and
the source comment only intends to swap the strict comparisons; the code,
not the claim, is at fault.  The strict cases do hold reversed: `cmp a b =
Less` iff `b ≤ a` (in milliseconds, so equality collapses into `Less`) and
`cmp a b = Greater` iff `a < b`. -/
theorem time_ord_reversal_drops_equality :
    Time.cmp ⟨5⟩ ⟨5⟩ = Ordering.lt ∧
    (∀ a b : Time, Time.cmp a b ≠ Ordering.eq) ∧
    (∀ a b : Time, Time.cmp a b = Ordering.lt ↔ b.milli_seconds ≤ a.milli_seconds) ∧
    (∀ a b : Time, Time.cmp a b = Ordering.gt ↔ a.milli_seconds < b.milli_seconds) :=
  ⟨by decide, time_cmp_ne_eq, time_cmp_eq_lt_iff, time_cmp_eq_gt_iff⟩

/-! ## Claim C7 -/

/-- C7: `Simulation::update_time` panics exactly when the argument is
strictly earlier (in milliseconds) than the current simulation time, and
otherwise sets the simulation time to the argument, which is then greater
than or equal to the previous time — so the virtual clock never decreases
across a run of the scheduler. -/
theorem update_time_never_decreases :
    ∀ now t : Time, Simulation.update_time now t =
      if t.milli_seconds < now.milli_seconds then none else some t := by
  intro now t
  unfold Simulation.update_time
  by_cases h : t.milli_seconds < now.milli_seconds
  · rw [if_pos ((time_cmp_eq_gt_iff t now).mpr h), if_pos h]
  · rw [if_neg (fun hc => h ((time_cmp_eq_gt_iff t now).mp hc)), if_neg h]

/-! ## Claim C4 -/

/-- C4: the garbage-collection filter makes quorum votes for an already
committed operation complete no-ops: a PBFT replica whose `cl_reqs` set holds
`op` drops any Prepare or Commit for `op` (returning `None` and leaving the
state untouched), and a Zyzzyva node whose `cl_reqs` holds `op` likewise
drops any LocalCommit, SpeculativeResponse, or OrderRequest for `op`. -/
theorem gc_filter_drops_votes_for_committed_ops :
    (∀ (s : PBFT.ReplicaState) (t : Time) (m : PBFT.PrepareMessage),
      m.c_req.operation ∈ s.cl_reqs →
      s.handle_message (PBFT.PBFTMessage.Prepare m) t = some (s, none)) ∧
    (∀ (s : PBFT.ReplicaState) (t : Time) (m : PBFT.CommitMessage),
      m.c_req.operation ∈ s.cl_reqs →
      s.handle_message (PBFT.PBFTMessage.Commit m) t = some (s, none)) ∧
    (∀ (z : Zyzzyva.State) (t : Time) (m : Zyzzyva.LocalCommit),
      m.c_req.operation ∈ z.cl_reqs →
      z.handle_message (Zyzzyva.ZyzzyvaMessage.LocalCommit m) t = some (z, none)) ∧
    (∀ (z : Zyzzyva.State) (t : Time) (m : Zyzzyva.SpeculativeResponse),
      m.c_req.operation ∈ z.cl_reqs →
      z.handle_message (Zyzzyva.ZyzzyvaMessage.SpeculativeResponse m) t = some (z, none)) ∧
    (∀ (z : Zyzzyva.State) (t : Time) (m : Zyzzyva.OrderRequest),
      m.c_req.operation ∈ z.cl_reqs →
      z.handle_message (Zyzzyva.ZyzzyvaMessage.OrderRequest m) t = some (z, none)) := by
  refine ⟨?_, ?_, ?_, ?_, ?_⟩ <;> intro s t m h <;>
    simp [PBFT.ReplicaState.handle_message, PBFT.ReplicaState.can_ignore_message,
      Zyzzyva.State.handle_message, Zyzzyva.State.can_ignore_message, h]

/-- Witness for C4: concrete replicas that have committed operation 7 drop
each of the five vote kinds for operation 7. -/
theorem gc_filter_drops_votes_witness :
    c4p.handle_message (PBFT.PBFTMessage.Prepare ⟨⟨7, 0⟩, 1, 1, 2⟩) ⟨3⟩ = some (c4p, none) ∧
    c4p.handle_message (PBFT.PBFTMessage.Commit ⟨⟨7, 0⟩, 1, 1, 2⟩) ⟨3⟩ = some (c4p, none) ∧
    c4z.handle_message (Zyzzyva.ZyzzyvaMessage.LocalCommit ⟨⟨7, 2⟩, 1, 1, 3⟩) ⟨3⟩ =
      some (c4z, none) ∧
    c4z.handle_message (Zyzzyva.ZyzzyvaMessage.SpeculativeResponse ⟨⟨7, 2⟩, 1, 1, 3⟩) ⟨3⟩ =
      some (c4z, none) ∧
    c4z.handle_message (Zyzzyva.ZyzzyvaMessage.OrderRequest ⟨⟨7, 2⟩, 1, 1, 1⟩) ⟨3⟩ =
      some (c4z, none) :=
  ⟨gc_filter_drops_votes_for_committed_ops.1 c4p ⟨3⟩ _ (by decide),
   gc_filter_drops_votes_for_committed_ops.2.1 c4p ⟨3⟩ _ (by decide),
   gc_filter_drops_votes_for_committed_ops.2.2.1 c4z ⟨3⟩ _ (by decide),
   gc_filter_drops_votes_for_committed_ops.2.2.2.1 c4z ⟨3⟩ _ (by decide),
   gc_filter_drops_votes_for_committed_ops.2.2.2.2 c4z ⟨3⟩ _ (by decide)⟩

/-! ## Helper lemmas about the PBFT predicate stages -/

theorem prepare_guard_elim {qs : Nat} {e : PBFT.LogEntry}
    (h : PBFT.prepare_guard qs e = true) :
    e.prepared = false ∧ e.has_pre_prepare_message = true ∧
      qs ≤ e.prepare_quorum.length := by
  unfold PBFT.prepare_guard PBFT.LogEntry.has_prepare_quorum_of at h
  simp only [Bool.and_eq_true, Bool.not_eq_true', decide_eq_true_eq] at h
  exact ⟨h.1, h.2.1, h.2.2⟩

theorem commit_guard_elim {qs : Nat} {e : PBFT.LogEntry}
    (h : PBFT.commit_guard qs e = true) :
    e.prepared = true ∧ e.committed_local = false ∧
      qs ≤ e.commit_quorum.length := by
  unfold PBFT.commit_guard PBFT.LogEntry.has_commit_quorum_of at h
  simp only [Bool.and_eq_true, Bool.not_eq_true', decide_eq_true_eq] at h
  exact ⟨h.1.1, h.1.2, h.2⟩

theorem prepared_stage_pq (qs id : Nat) (peers : List Nat) (e : PBFT.LogEntry)
    (out : PBFT.Output) :
    (PBFT.prepared_stage qs id peers e out).1.prepare_quorum = e.prepare_quorum := by
  unfold PBFT.prepared_stage
  split <;> rfl

theorem has_pre_prepare_congr {e e' : PBFT.LogEntry}
    (h : e'.prepare_quorum = e.prepare_quorum) :
    e'.has_pre_prepare_message = e.has_pre_prepare_message := by
  unfold PBFT.LogEntry.has_pre_prepare_message
  rw [h]

theorem prepared_stage_guard_false {qs : Nat} {e : PBFT.LogEntry} (id : Nat)
    (peers : List Nat) (out : PBFT.Output) (h : PBFT.prepare_guard qs e = false) :
    PBFT.prepared_stage qs id peers e out = (e, out) := by
  simp [PBFT.prepared_stage, h]

theorem prepared_stage_fire_fst {qs : Nat} {e : PBFT.LogEntry} (id : Nat)
    (peers : List Nat) (out : PBFT.Output) (h : PBFT.prepare_guard qs e = true) :
    (PBFT.prepared_stage qs id peers e out).1 =
      { e with prepared := true, commit_quorum := hsInsert e.commit_quorum ⟨e.client_request, e.view, e.seq_number, id⟩ } := by
  simp [PBFT.prepared_stage, h]

theorem prepared_stage_fire_snd {qs : Nat} {e : PBFT.LogEntry} (id : Nat)
    (peers : List Nat) (out : PBFT.Output) (h : PBFT.prepare_guard qs e = true) :
    (PBFT.prepared_stage qs id peers e out).2 =
      out ++ PBFT.create_peer_broadcast_output (PBFT.PBFTMessage.Commit ⟨e.client_request, e.view, e.seq_number, id⟩) peers := by
  simp [PBFT.prepared_stage, h]

theorem prepared_stage_of_prepared {qs : Nat} {e : PBFT.LogEntry} (id : Nat)
    (peers : List Nat) (out : PBFT.Output) (h : e.prepared = true) :
    PBFT.prepared_stage qs id peers e out = (e, out) :=
  prepared_stage_guard_false id peers out (by simp [PBFT.prepare_guard, h])

/-- If an entry that was unprepared before the `prepared_stage` is prepared
after it, the stage fired, so the entry holds a PrePrepare and a full prepare
quorum. -/
theorem prepared_stage_flip_elim {qs id : Nat} {peers : List Nat}
    {e e' : PBFT.LogEntry} {out : PBFT.Output}
    (he' : e' = (PBFT.prepared_stage qs id peers e out).1)
    (hprep : e'.prepared = true) (hbase : e.prepared = false) :
    e'.has_pre_prepare_message = true ∧ qs ≤ e'.prepare_quorum.length := by
  by_cases hg : PBFT.prepare_guard qs e = true
  · obtain ⟨_, hpp, hlen⟩ := prepare_guard_elim hg
    subst he'
    rw [prepared_stage_fire_fst id peers out hg]
    exact ⟨hpp, hlen⟩
  · rw [Bool.not_eq_true] at hg
    rw [prepared_stage_guard_false id peers out hg] at he'
    dsimp only at he'
    subst he'
    rw [hbase] at hprep
    cases hprep

theorem committed_stage_quorum_size (qs : Nat) (s1 : PBFT.ReplicaState) (req : Nat)
    (e1 : PBFT.LogEntry) :
    (PBFT.committed_stage qs s1 req e1).quorum_size = s1.quorum_size := by
  unfold PBFT.committed_stage
  split <;> rfl

theorem committed_stage_not_fire {qs : Nat} (s1 : PBFT.ReplicaState) (req : Nat)
    {e1 : PBFT.LogEntry} (h : PBFT.commit_guard qs e1 = false) :
    PBFT.committed_stage qs s1 req e1 = s1 := by
  simp [PBFT.committed_stage, h]

theorem committed_stage_log_lookup (qs : Nat) (s1 : PBFT.ReplicaState) (req : Nat)
    (e1 : PBFT.LogEntry) (op : Nat) :
    (PBFT.committed_stage qs s1 req e1).log op = none ∨
    (PBFT.committed_stage qs s1 req e1).log op = s1.log op := by
  unfold PBFT.committed_stage
  split
  · by_cases hop : op = req
    · subst hop
      exact Or.inl (mapRemove_eq _ _)
    · exact Or.inr (mapRemove_ne _ _ hop)
  · exact Or.inr rfl

/-- Decomposition of a successful `update_prediactes` call: the quorum size
is unchanged and every entry of the new log either survived untouched from
the old log under a different key or is the `prepared_stage` image of the old
entry at `req_id`. -/
theorem update_prediactes_char (s : PBFT.ReplicaState) (req : Nat) (out : PBFT.Output)
    (t : Time) {s' : PBFT.ReplicaState} {o : Option PBFT.Output}
    (h : s.update_prediactes req out t = some (s', o)) :
    s'.quorum_size = s.quorum_size ∧
    ∀ (op : Nat) (e' : PBFT.LogEntry), s'.log op = some e' →
      (op ≠ req ∧ s.log op = some e') ∨
      (op = req ∧ ∃ e, s.log req = some e ∧
        e' = (PBFT.prepared_stage s.quorum_size s.id s.peers e out).1) := by
  cases hlog : s.log req with
  | none => simp [PBFT.ReplicaState.update_prediactes, hlog] at h
  | some e =>
    simp only [PBFT.ReplicaState.update_prediactes, hlog, Option.some.injEq] at h
    rw [Prod.mk.injEq] at h
    obtain ⟨hs', _⟩ := h
    constructor
    · rw [← hs', committed_stage_quorum_size]
    · intro op e' he'
      rw [← hs'] at he'
      rcases committed_stage_log_lookup s.quorum_size _ req
        (PBFT.prepared_stage s.quorum_size s.id s.peers e out).1 op with hc | hc
      · rw [hc] at he'
        cases he'
      · rw [hc] at he'
        dsimp only at he'
        by_cases hop : op = req
        · subst hop
          rw [mapInsert_eq] at he'
          exact Or.inr ⟨rfl, e, rfl, (Option.some.inj he').symm⟩
        · rw [mapInsert_ne _ _ _ hop] at he'
          exact Or.inl ⟨hop, he'⟩

/-! ## Claim C2 -/

/-- C2: the PBFT predicate flips obey the quorum discipline.  First
conjunct: whenever a call to `update_prediactes` newly records `req` as
committed (the only way `committed_local` is ever set), the entry at that
moment — the `prepared_stage` image of the stored entry — is `prepared`, not
yet committed, and its commit quorum has at least `quorum_size` elements.
Second conjunct: whenever a `handle_message` delivery leaves an entry whose
`prepared` flag is `true` although the pre-state entry for that operation (if
any) was unprepared, the entry holds a PrePrepare and its prepare quorum has
at least `quorum_size` elements.  Together these state that `prepared` flips
only with a PrePrepare plus a 2f+1 prepare quorum and `committed_local` flips
only while `prepared` with a 2f+1 commit quorum. -/
theorem pbft_predicate_guard_discipline :
    (∀ (s : PBFT.ReplicaState) (req : Nat) (out : PBFT.Output) (t : Time)
       (e : PBFT.LogEntry) (s' : PBFT.ReplicaState) (o : Option PBFT.Output),
       s.log req = some e →
       s.update_prediactes req out t = some (s', o) →
       req ∉ s.cl_reqs → req ∈ s'.cl_reqs →
       (PBFT.prepared_stage s.quorum_size s.id s.peers e out).1.prepared = true ∧
       (PBFT.prepared_stage s.quorum_size s.id s.peers e out).1.committed_local = false ∧
       s.quorum_size ≤ (PBFT.prepared_stage s.quorum_size s.id s.peers e out).1.commit_quorum.length) ∧
    (∀ (s : PBFT.ReplicaState) (m : PBFT.PBFTMessage) (t : Time)
       (s' : PBFT.ReplicaState) (o : Option PBFT.Output) (op : Nat) (e' : PBFT.LogEntry),
       s.handle_message m t = some (s', o) →
       s'.log op = some e' → e'.prepared = true →
       (∀ e, s.log op = some e → e.prepared = false) →
       e'.has_pre_prepare_message = true ∧ s.quorum_size ≤ e'.prepare_quorum.length) := by
  constructor
  · intro s req out t e s' o hlog hup hnin hin
    simp only [PBFT.ReplicaState.update_prediactes, hlog, Option.some.injEq] at hup
    rw [Prod.mk.injEq] at hup
    obtain ⟨hs', _⟩ := hup
    subst hs'
    by_cases hg : PBFT.commit_guard s.quorum_size
        (PBFT.prepared_stage s.quorum_size s.id s.peers e out).1 = true
    · obtain ⟨h1, h2, h3⟩ := commit_guard_elim hg
      exact ⟨h1, h2, h3⟩
    · rw [Bool.not_eq_true] at hg
      simp only [PBFT.committed_stage, hg, Bool.false_eq_true, if_false] at hin
      exact absurd hin hnin
  · intro s m t s' o op e' hh hle hprep hold
    by_cases hig : s.can_ignore_message m = true
    · simp only [PBFT.ReplicaState.handle_message, hig, if_true, Option.some.injEq] at hh
      rw [Prod.mk.injEq] at hh
      obtain ⟨hs', _⟩ := hh
      subst hs'
      rw [hold e' hle] at hprep
      cases hprep
    · simp only [PBFT.ReplicaState.handle_message, hig, Bool.false_eq_true, if_false] at hh
      -- a successful non-ignored delivery dispatches to one of the handlers
      cases m with
      | ClientResponse mc => cases hh
      | ClientRequest mc =>
        simp only [PBFT.ReplicaState.handle_client_request] at hh
        by_cases hp : s.is_primary = true
        · simp only [hp, if_true, Option.some.injEq] at hh
          rw [Prod.mk.injEq] at hh
          obtain ⟨hs', _⟩ := hh
          subst hs'
          dsimp only at hle
          by_cases hop : op = mc.operation
          · subst hop
            rw [mapInsert_eq] at hle
            cases hle
            simp [PBFT.LogEntry.new] at hprep
          · rw [mapInsert_ne _ _ _ hop] at hle
            rw [hold e' hle] at hprep
            cases hprep
        · simp only [Bool.not_eq_true] at hp
          simp only [hp, Bool.false_eq_true, if_false, Option.some.injEq] at hh
          rw [Prod.mk.injEq] at hh
          obtain ⟨hs', _⟩ := hh
          subst hs'
          rw [hold e' hle] at hprep
          cases hprep
      | PrePrepare mp =>
        simp only [PBFT.ReplicaState.handle_pre_prepare_message] at hh
        by_cases hpr : s.curr_primary = mp.sender_id
        · simp only [hpr, if_true] at hh
          cases hsl : s.log mp.c_req.operation with
          | some e0 =>
            rw [hsl] at hh
            dsimp only at hh
            simp only [PBFT.pre_prepare_body] at hh
            obtain ⟨hqs, hchar⟩ := update_prediactes_char _ _ _ _ hh
            rcases hchar op e' hle with ⟨hne, h1⟩ | ⟨hopr, eX, heX, he'eq⟩
            · dsimp only at h1
              rw [mapInsert_ne _ _ _ hne] at h1
              rw [hold e' h1] at hprep
              cases hprep
            · subst hopr
              dsimp only at heX
              rw [mapInsert_eq] at heX
              injection heX with heX
              subst heX
              have hbase : (PBFT.pre_prepare_entry s mp e0).prepared = false := by
                simpa [PBFT.pre_prepare_entry] using hold e0 hsl
              exact prepared_stage_flip_elim he'eq hprep hbase
          | none =>
            rw [hsl] at hh
            dsimp only at hh
            simp only [PBFT.pre_prepare_body] at hh
            obtain ⟨hqs, hchar⟩ := update_prediactes_char _ _ _ _ hh
            rcases hchar op e' hle with ⟨hne, h1⟩ | ⟨hopr, eX, heX, he'eq⟩
            · dsimp only at h1
              rw [mapInsert_ne _ _ _ hne] at h1
              rw [hold e' h1] at hprep
              cases hprep
            · subst hopr
              dsimp only at heX
              rw [mapInsert_eq] at heX
              injection heX with heX
              subst heX
              have hbase : (PBFT.pre_prepare_entry s mp
                  (PBFT.LogEntry.new mp.view mp.seq_number mp.c_req)).prepared = false := by
                simp [PBFT.pre_prepare_entry, PBFT.LogEntry.new]
              exact prepared_stage_flip_elim he'eq hprep hbase
        · simp only [hpr, if_false, Option.some.injEq] at hh
          rw [Prod.mk.injEq] at hh
          obtain ⟨hs', _⟩ := hh
          subst hs'
          rw [hold e' hle] at hprep
          cases hprep
      | Prepare mp =>
        simp only [PBFT.ReplicaState.handle_prepare_message] at hh
        cases hsl : s.log mp.c_req.operation with
        | some e0 =>
          rw [hsl] at hh
          dsimp only at hh
          simp only [PBFT.prepare_body] at hh
          obtain ⟨hqs, hchar⟩ := update_prediactes_char _ _ _ _ hh
          rcases hchar op e' hle with ⟨hne, h1⟩ | ⟨hopr, eX, heX, he'eq⟩
          · dsimp only at h1
            rw [mapInsert_ne _ _ _ hne] at h1
            rw [hold e' h1] at hprep
            cases hprep
          · subst hopr
            dsimp only at heX
            rw [mapInsert_eq] at heX
            injection heX with heX
            subst heX
            have hbase : (PBFT.prepare_insert mp e0).prepared = false := by
              simpa [PBFT.prepare_insert] using hold e0 hsl
            exact prepared_stage_flip_elim he'eq hprep hbase
        | none =>
          rw [hsl] at hh
          dsimp only at hh
          rw [Option.some.injEq, Prod.mk.injEq] at hh
          obtain ⟨hs', _⟩ := hh
          subst hs'
          dsimp only at hle
          by_cases hop : op = mp.c_req.operation
          · subst hop
            rw [mapInsert_eq] at hle
            cases hle
            simp [PBFT.prepare_insert, PBFT.LogEntry.new] at hprep
          · rw [mapInsert_ne _ _ _ hop] at hle
            rw [hold e' hle] at hprep
            cases hprep
      | Commit mc =>
        simp only [PBFT.ReplicaState.handle_commit_message] at hh
        cases hsl : s.log mc.c_req.operation with
        | some e0 =>
          rw [hsl] at hh
          dsimp only at hh
          simp only [PBFT.commit_body] at hh
          obtain ⟨hqs, hchar⟩ := update_prediactes_char _ _ _ _ hh
          rcases hchar op e' hle with ⟨hne, h1⟩ | ⟨hopr, eX, heX, he'eq⟩
          · dsimp only at h1
            rw [mapInsert_ne _ _ _ hne] at h1
            rw [hold e' h1] at hprep
            cases hprep
          · subst hopr
            dsimp only at heX
            rw [mapInsert_eq] at heX
            injection heX with heX
            subst heX
            have hbase : (PBFT.commit_insert mc e0).prepared = false := by
              simpa [PBFT.commit_insert] using hold e0 hsl
            exact prepared_stage_flip_elim he'eq hprep hbase
        | none =>
          rw [hsl] at hh
          dsimp only at hh
          rw [Option.some.injEq, Prod.mk.injEq] at hh
          obtain ⟨hs', _⟩ := hh
          subst hs'
          dsimp only at hle
          by_cases hop : op = mc.c_req.operation
          · subst hop
            rw [mapInsert_eq] at hle
            cases hle
            simp [PBFT.commit_insert, PBFT.LogEntry.new] at hprep
          · rw [mapInsert_ne _ _ _ hop] at hle
            rw [hold e' hle] at hprep
            cases hprep

/-- Witness for C2: the backup `c2s` (quorum 3) commits operation 7 when its
prepared entry `c2e` holds three commit votes, and the backup `c2bS` flips
`prepared` for operation 7 when the PrePrepare `c2bM` completes a quorum of
four prepare-set messages. -/
theorem pbft_predicate_guard_witness :
    ((PBFT.prepared_stage c2s.quorum_size c2s.id c2s.peers c2e []).1.prepared = true ∧
     (PBFT.prepared_stage c2s.quorum_size c2s.id c2s.peers c2e []).1.committed_local = false ∧
     c2s.quorum_size ≤ (PBFT.prepared_stage c2s.quorum_size c2s.id c2s.peers c2e []).1.commit_quorum.length) ∧
    (c2bE'.has_pre_prepare_message = true ∧
     c2bS.quorum_size ≤ c2bE'.prepare_quorum.length) :=
  ⟨pbft_predicate_guard_discipline.1 c2s 7 [] ⟨0⟩ c2e c2s' c2o rfl rfl
      (by decide) (by decide),
   pbft_predicate_guard_discipline.2 c2bS (PBFT.PBFTMessage.PrePrepare c2bM) ⟨0⟩
      c2bS' c2bO 7 c2bE' rfl rfl (by decide)
      (by
        intro e h
        have h2 : some c2bE = some e := h
        cases h2
        decide)⟩

theorem create_peer_broadcast_output_length (m : PBFT.PBFTMessage) (peers : List Nat) :
    (PBFT.create_peer_broadcast_output m peers).length = peers.length := by
  simp [PBFT.create_peer_broadcast_output]

/-- When neither predicate guard fires, `update_prediactes` only writes the
entry back and wraps the output. -/
theorem update_prediactes_no_fire {s : PBFT.ReplicaState} {req : Nat} {e : PBFT.LogEntry}
    (hlog : s.log req = some e)
    (hg1 : PBFT.prepare_guard s.quorum_size e = false)
    (hg2 : PBFT.commit_guard s.quorum_size e = false)
    (out : PBFT.Output) (t : Time) :
    s.update_prediactes req out t =
      some ({ s with log := mapInsert s.log req e },
            if out.length = 0 then none else some out) := by
  simp only [PBFT.ReplicaState.update_prediactes, hlog]
  rw [prepared_stage_guard_false s.id s.peers out hg1]
  simp only [PBFT.committed_stage, hg2, Bool.false_eq_true, if_false]

/-- The handler-shaped form of `update_prediactes_no_fire`: the entry was
just inserted and neither guard fires, so the call changes nothing. -/
theorem update_prediactes_insert_no_fire (s : PBFT.ReplicaState) (req : Nat)
    (e : PBFT.LogEntry)
    (hg1 : PBFT.prepare_guard s.quorum_size e = false)
    (hg2 : PBFT.commit_guard s.quorum_size e = false)
    (out : PBFT.Output) (t : Time) :
    PBFT.ReplicaState.update_prediactes { s with log := mapInsert s.log req e } req out t =
      some ({ s with log := mapInsert s.log req e },
            if out.length = 0 then none else some out) := by
  have hlog : ({ s with log := mapInsert s.log req e } : PBFT.ReplicaState).log req = some e :=
    mapInsert_eq _ _ _
  rw [update_prediactes_no_fire hlog hg1 hg2]
  have hmm : mapInsert (mapInsert s.log req e) req e = mapInsert s.log req e :=
    mapInsert_self (mapInsert_eq _ _ _)
  simp only [hmm]

/-! ## Claim C8 -/

/-- C8: the GC filter does not cover PrePrepare or ClientRequest, so both
resurrect a log entry for an operation that is already in `cl_reqs`.  A
PrePrepare from the current primary for a committed operation with no log
entry creates a fresh entry (unprepared, holding exactly the local Prepare
vote and the PrePrepare) and broadcasts Prepare to all peers; a ClientRequest
at the primary for a committed operation assigns the next sequence number,
stores a fresh entry, and broadcasts PrePrepare to all peers.  (The
hypotheses `3 ≤ quorum_size` and `peers ≠ []` hold for every constructed
replica.) -/
theorem gc_filter_misses_pre_prepare_and_request :
    (∀ (s : PBFT.ReplicaState) (t : Time) (m : PBFT.PrePrepareMessage),
      m.c_req.operation ∈ s.cl_reqs →
      s.log m.c_req.operation = none →
      s.curr_primary = m.sender_id →
      3 ≤ s.quorum_size →
      s.peers ≠ [] →
      ∃ e' : PBFT.LogEntry,
        s.handle_message (PBFT.PBFTMessage.PrePrepare m) t =
          some ({ s with log := mapInsert s.log m.c_req.operation e' },
            some (PBFT.create_peer_broadcast_output
              (PBFT.PBFTMessage.Prepare ⟨m.c_req, m.view, m.seq_number, s.id⟩) s.peers)) ∧
        e'.prepared = false ∧ e'.committed_local = false ∧
        e'.client_request = m.c_req ∧
        e'.prepare_quorum =
          [PBFT.PrepareQuorumMessage.PrepareMessage ⟨m.c_req, m.view, m.seq_number, s.id⟩,
           PBFT.PrepareQuorumMessage.PrePrepareMessage m]) ∧
    (∀ (s : PBFT.ReplicaState) (t : Time) (m : PBFT.ClientRequest),
      m.operation ∈ s.cl_reqs →
      s.role = PBFT.ReplicaRole.Primary →
      ∃ e' : PBFT.LogEntry,
        s.handle_message (PBFT.PBFTMessage.ClientRequest m) t =
          some ({ s with next_seq_num := s.next_seq_num + 1,
                         log := mapInsert s.log m.operation e' },
            some (PBFT.create_peer_broadcast_output
              (PBFT.PBFTMessage.PrePrepare ⟨m, s.current_view, s.next_seq_num + 1, s.id⟩)
              s.peers)) ∧
        e'.prepared = false ∧ e'.seq_number = s.next_seq_num + 1 ∧
        e'.prepare_quorum =
          [PBFT.PrepareQuorumMessage.PrePrepareMessage
            ⟨m, s.current_view, s.next_seq_num + 1, s.id⟩]) := by
  constructor
  · intro s t m hin hlog hpr hqs hpe
    refine ⟨PBFT.pre_prepare_entry s m (PBFT.LogEntry.new m.view m.seq_number m.c_req),
      ?_, ?_, ?_, ?_, ?_⟩
    · have hpq : (PBFT.pre_prepare_entry s m
          (PBFT.LogEntry.new m.view m.seq_number m.c_req)).prepare_quorum =
          [PBFT.PrepareQuorumMessage.PrepareMessage ⟨m.c_req, m.view, m.seq_number, s.id⟩,
           PBFT.PrepareQuorumMessage.PrePrepareMessage m] := by
        simp [PBFT.pre_prepare_entry, PBFT.pre_prepare_vote, PBFT.LogEntry.new, hsInsert]
      have hg1 : PBFT.prepare_guard s.quorum_size
          (PBFT.pre_prepare_entry s m (PBFT.LogEntry.new m.view m.seq_number m.c_req)) = false := by
        have hn : ¬ (s.quorum_size ≤ (PBFT.pre_prepare_entry s m
            (PBFT.LogEntry.new m.view m.seq_number m.c_req)).prepare_quorum.length) := by
          rw [hpq]
          simp only [List.length_cons, List.length_nil]
          omega
        simp [PBFT.prepare_guard, PBFT.LogEntry.has_prepare_quorum_of, hn]
      have hg2 : PBFT.commit_guard s.quorum_size
          (PBFT.pre_prepare_entry s m (PBFT.LogEntry.new m.view m.seq_number m.c_req)) = false := by
        simp [PBFT.commit_guard, PBFT.pre_prepare_entry, PBFT.LogEntry.new]
      simp only [PBFT.ReplicaState.handle_message, PBFT.ReplicaState.can_ignore_message,
        Bool.false_eq_true, if_false, PBFT.ReplicaState.handle_pre_prepare_message, hpr,
        if_true, hlog, PBFT.pre_prepare_body]
      rw [update_prediactes_insert_no_fire s m.c_req.operation _ hg1 hg2]
      have hlen : (PBFT.create_peer_broadcast_output
          (PBFT.PBFTMessage.Prepare (PBFT.pre_prepare_vote s
            (PBFT.LogEntry.new m.view m.seq_number m.c_req))) s.peers).length ≠ 0 := by
        rw [create_peer_broadcast_output_length]
        intro hz
        exact hpe (List.eq_nil_of_length_eq_zero hz)
      rw [if_neg hlen]
      rfl
    · rfl
    · rfl
    · rfl
    · simp [PBFT.pre_prepare_entry, PBFT.pre_prepare_vote, PBFT.LogEntry.new, hsInsert]
  · intro s t m hin hrole
    refine ⟨{ PBFT.LogEntry.new s.current_view (s.next_seq_num + 1) m with
        prepare_quorum := hsInsert [] (PBFT.PrepareQuorumMessage.PrePrepareMessage
          ⟨m, s.current_view, s.next_seq_num + 1, s.id⟩) }, ?_, rfl, rfl, ?_⟩
    · simp [PBFT.ReplicaState.handle_message, PBFT.ReplicaState.can_ignore_message,
        PBFT.ReplicaState.handle_client_request, PBFT.ReplicaState.is_primary, hrole]
    · simp [hsInsert]

/-- Witness for C8: the primary `c8s` has operation 7 in `cl_reqs` and no
entry for it, yet a late PrePrepare and a replayed ClientRequest for 7 both
store a fresh entry and broadcast. -/
theorem gc_filter_misses_witness :
    (∃ e' : PBFT.LogEntry,
      c8s.handle_message (PBFT.PBFTMessage.PrePrepare ⟨⟨7, 0⟩, 1, 1, 1⟩) ⟨5⟩ =
        some ({ c8s with log := mapInsert c8s.log 7 e' },
          some (PBFT.create_peer_broadcast_output
            (PBFT.PBFTMessage.Prepare ⟨⟨7, 0⟩, 1, 1, c8s.id⟩) c8s.peers)) ∧
      e'.prepared = false ∧ e'.committed_local = false ∧
      e'.client_request = ⟨7, 0⟩ ∧
      e'.prepare_quorum =
        [PBFT.PrepareQuorumMessage.PrepareMessage ⟨⟨7, 0⟩, 1, 1, c8s.id⟩,
         PBFT.PrepareQuorumMessage.PrePrepareMessage ⟨⟨7, 0⟩, 1, 1, 1⟩]) ∧
    (∃ e' : PBFT.LogEntry,
      c8s.handle_message (PBFT.PBFTMessage.ClientRequest ⟨7, 0⟩) ⟨5⟩ =
        some ({ c8s with next_seq_num := c8s.next_seq_num + 1,
                         log := mapInsert c8s.log 7 e' },
          some (PBFT.create_peer_broadcast_output
            (PBFT.PBFTMessage.PrePrepare
              ⟨⟨7, 0⟩, c8s.current_view, c8s.next_seq_num + 1, c8s.id⟩) c8s.peers)) ∧
      e'.prepared = false ∧ e'.seq_number = c8s.next_seq_num + 1 ∧
      e'.prepare_quorum =
        [PBFT.PrepareQuorumMessage.PrePrepareMessage
          ⟨⟨7, 0⟩, c8s.current_view, c8s.next_seq_num + 1, c8s.id⟩]) :=
  ⟨gc_filter_misses_pre_prepare_and_request.1 c8s ⟨5⟩ ⟨⟨7, 0⟩, 1, 1, 1⟩
      (by decide) rfl (by decide) (by decide) (by decide),
   gc_filter_misses_pre_prepare_and_request.2 c8s ⟨5⟩ ⟨7, 0⟩
      (by decide) (by decide)⟩

/-- A replica (non-client) never panics on a `Commit` whose certificate is
nonempty: with an entry it replaces the certificate, without one it
reconstructs the entry from the head of the certificate. -/
theorem handle_commit_isSome {r : Zyzzyva.State} {c : Zyzzyva.Commit} (t : Time)
    (hrole : r.role ≠ Zyzzyva.Role.Client) (hc : c.certificate ≠ []) :
    (r.handle_message (Zyzzyva.ZyzzyvaMessage.Commit c) t).isSome = true := by
  simp only [Zyzzyva.State.handle_message, Zyzzyva.State.can_ignore_message,
    Bool.false_eq_true, if_false]
  cases hr : r.role with
  | Client => exact absurd hr hrole
  | Primary =>
    simp only [Zyzzyva.State.handle_commit, hr]
    cases hl : r.log c.req_id with
    | some e => simp
    | none =>
      cases hcert : c.certificate with
      | nil => exact absurd hcert hc
      | cons a as => simp [hcert]
  | Backup =>
    simp only [Zyzzyva.State.handle_commit, hr]
    cases hl : r.log c.req_id with
    | some e => simp
    | none =>
      cases hcert : c.certificate with
      | nil => exact absurd hcert hc
      | cons a as => simp [hcert]

/-! ## Claim C10 -/

/-- C10: `State::handle_commit` indexes `certificate[0]` when no log entry
exists for the `Commit`, so a replica panics on a Commit with an empty
certificate and a missing entry (first conjunct: the embedded handler
returns `none`).  Under the precondition that the Commit was produced by
`handle_client_timeout` — whose broadcast only fires with `quorum_size ≤
|certificate|`, and `quorum_size ≥ 3` for every constructed state — every
emitted message is a Commit with at least 3 certificate entries, and
delivering it to any non-client replica is panic-free (second conjunct). -/
theorem commit_reconstruction_panic_and_safety :
    (∀ (s : Zyzzyva.State) (t : Time) (c : Zyzzyva.Commit),
      s.role ≠ Zyzzyva.Role.Client →
      s.log c.req_id = none →
      c.certificate = [] →
      s.handle_message (Zyzzyva.ZyzzyvaMessage.Commit c) t = none) ∧
    (∀ (s : Zyzzyva.State) (msg : Zyzzyva.ClientTimeout) (t : Time)
       (s' : Zyzzyva.State) (out : Zyzzyva.Output),
      s.handle_message (Zyzzyva.ZyzzyvaMessage.ClientTimeout msg) t = some (s', some out) →
      3 ≤ s.quorum_size →
      ∀ (dst : Nat) (mz : Zyzzyva.ZyzzyvaMessage), (dst, mz) ∈ out →
        ∃ c : Zyzzyva.Commit, mz = Zyzzyva.ZyzzyvaMessage.Commit c ∧
          3 ≤ c.certificate.length ∧
          ∀ (r : Zyzzyva.State) (t' : Time), r.role ≠ Zyzzyva.Role.Client →
            (r.handle_message (Zyzzyva.ZyzzyvaMessage.Commit c) t').isSome = true) := by
  constructor
  · intro s t c hrole hlog hcert
    simp only [Zyzzyva.State.handle_message, Zyzzyva.State.can_ignore_message,
      Bool.false_eq_true, if_false]
    cases hr : s.role with
    | Client => exact absurd hr hrole
    | Primary => simp only [Zyzzyva.State.handle_commit, hr, hlog, hcert]
    | Backup => simp only [Zyzzyva.State.handle_commit, hr, hlog, hcert]
  · intro s msg t s' out hh hqs dst mz hmem
    simp only [Zyzzyva.State.handle_message, Zyzzyva.State.can_ignore_message,
      Bool.false_eq_true, if_false] at hh
    cases hr : s.role with
    | Primary => simp [Zyzzyva.State.handle_client_timeout, hr] at hh
    | Backup => simp [Zyzzyva.State.handle_client_timeout, hr] at hh
    | Client =>
      simp only [Zyzzyva.State.handle_client_timeout, hr] at hh
      cases hl : s.log msg.req_id with
      | none => simp [hl] at hh
      | some e =>
        rw [hl] at hh
        by_cases hg : (decide (s.quorum_size ≤ e.commit_certificate.length) &&
            decide (e.commit_certificate.length < s.peers.length)) = true
        · simp only [hg, if_true, Option.some.injEq, Prod.mk.injEq] at hh
          obtain ⟨-, hout⟩ := hh
          rw [← hout] at hmem
          simp only [Zyzzyva.create_peer_broadcast_output, List.mem_map] at hmem
          obtain ⟨a, -, ha⟩ := hmem
          rw [Prod.mk.injEq] at ha
          obtain ⟨-, hmz⟩ := ha
          refine ⟨_, hmz.symm, ?_, ?_⟩
          · rw [Bool.and_eq_true] at hg
            have hle := of_decide_eq_true hg.1
            calc 3 ≤ s.quorum_size := hqs
              _ ≤ e.commit_certificate.length := hle
          · intro r t' hrole2
            refine handle_commit_isSome t' hrole2 ?_
            intro hnil
            rw [Bool.and_eq_true] at hg
            have hle := of_decide_eq_true hg.1
            have : e.commit_certificate.length = 0 := by
              simpa using congrArg List.length hnil
            omega
        · simp only [Bool.not_eq_true] at hg
          simp [hg] at hh

/-- Witness for C10: a five node primary panics on a Commit for the unknown
operation 7 with an empty certificate, while the Commit broadcast produced by
the timed-out client `c10s` carries three certificate entries and is
panic-free at every non-client replica. -/
theorem commit_reconstruction_witness :
    ((Zyzzyva.State.init 1 5).handle_message
        (Zyzzyva.ZyzzyvaMessage.Commit ⟨7, [], 9⟩) ⟨0⟩ = none) ∧
    (∃ c : Zyzzyva.Commit,
       Zyzzyva.ZyzzyvaMessage.Commit ⟨7, c5e.commit_certificate, c10s.id⟩ =
         Zyzzyva.ZyzzyvaMessage.Commit c ∧
       3 ≤ c.certificate.length ∧
       ∀ (r : Zyzzyva.State) (t' : Time), r.role ≠ Zyzzyva.Role.Client →
         (r.handle_message (Zyzzyva.ZyzzyvaMessage.Commit c) t').isSome = true) :=
  ⟨commit_reconstruction_panic_and_safety.1 (Zyzzyva.State.init 1 5) ⟨0⟩ ⟨7, [], 9⟩
      (by decide) rfl rfl,
   commit_reconstruction_panic_and_safety.2 c10s ⟨7⟩ ⟨0⟩ c10s' c10out rfl
      (by decide) 1 _ (by decide)⟩

/-! ## Helper lemmas for re-delivery (idempotence) -/

theorem mem_hsInsert_of_mem {α : Type} [DecidableEq α] {l : List α} {x : α}
    (y : α) (h : x ∈ l) : x ∈ hsInsert l y :=
  (mem_hsInsert_iff l y x).mpr (Or.inr h)

theorem prepare_insert_mem {p : PBFT.PrepareMessage} {e : PBFT.LogEntry}
    (h : PBFT.PrepareQuorumMessage.PrepareMessage p ∈ e.prepare_quorum) :
    PBFT.prepare_insert p e = e := by
  unfold PBFT.prepare_insert
  rw [hsInsert_of_mem h]

theorem commit_insert_mem {c : PBFT.CommitMessage} {e : PBFT.LogEntry}
    (h : c ∈ e.commit_quorum) :
    PBFT.commit_insert c e = e := by
  unfold PBFT.commit_insert
  rw [hsInsert_of_mem h]

theorem prepared_stage_cq_mem (qs id : Nat) (peers : List Nat) {e : PBFT.LogEntry}
    (out : PBFT.Output) {c : PBFT.CommitMessage} (h : c ∈ e.commit_quorum) :
    c ∈ (PBFT.prepared_stage qs id peers e out).1.commit_quorum := by
  unfold PBFT.prepared_stage
  split
  · exact mem_hsInsert_of_mem _ h
  · exact h

/-- After the prepared stage the prepare guard can never fire again: either
the stage just set `prepared`, or its guard was false and the entry is
unchanged. -/
theorem prepare_guard_after_stage (qs id : Nat) (peers : List Nat)
    (e : PBFT.LogEntry) (out : PBFT.Output) :
    PBFT.prepare_guard qs (PBFT.prepared_stage qs id peers e out).1 = false := by
  by_cases hg : PBFT.prepare_guard qs e = true
  · rw [prepared_stage_fire_fst id peers out hg]
    simp [PBFT.prepare_guard]
  · rw [Bool.not_eq_true] at hg
    rw [prepared_stage_guard_false id peers out hg]
    exact hg

/-- `update_prediactes` with an empty output and both guards false is a
complete no-op. -/
theorem update_prediactes_stable {s : PBFT.ReplicaState} {req : Nat} {e : PBFT.LogEntry}
    (hlog : s.log req = some e)
    (hg1 : PBFT.prepare_guard s.quorum_size e = false)
    (hg2 : PBFT.commit_guard s.quorum_size e = false) (t : Time) :
    s.update_prediactes req [] t = some (s, none) := by
  rw [update_prediactes_no_fire hlog hg1 hg2 [] t]
  rw [mapInsert_self hlog]
  rfl

theorem handle_prepare_of_log {s : PBFT.ReplicaState} {p : PBFT.PrepareMessage}
    {e : PBFT.LogEntry} (t : Time)
    (hig : s.can_ignore_message (PBFT.PBFTMessage.Prepare p) = false)
    (hl : s.log p.c_req.operation = some e) :
    s.handle_message (PBFT.PBFTMessage.Prepare p) t = PBFT.prepare_body s p e t := by
  simp only [PBFT.ReplicaState.handle_message, hig, Bool.false_eq_true, if_false,
    PBFT.ReplicaState.handle_prepare_message, hl]

theorem handle_commit_of_log {s : PBFT.ReplicaState} {c : PBFT.CommitMessage}
    {e : PBFT.LogEntry} (t : Time)
    (hig : s.can_ignore_message (PBFT.PBFTMessage.Commit c) = false)
    (hl : s.log c.c_req.operation = some e) :
    s.handle_message (PBFT.PBFTMessage.Commit c) t = PBFT.commit_body s c e t := by
  simp only [PBFT.ReplicaState.handle_message, hig, Bool.false_eq_true, if_false,
    PBFT.ReplicaState.handle_commit_message, hl]

/-- Delivering a Prepare that is already in the stored entry, with both
guards false, changes nothing and emits nothing. -/
theorem handle_prepare_stable {s : PBFT.ReplicaState} {p : PBFT.PrepareMessage}
    {e : PBFT.LogEntry} (t : Time)
    (hig : s.can_ignore_message (PBFT.PBFTMessage.Prepare p) = false)
    (hl : s.log p.c_req.operation = some e)
    (hm : PBFT.PrepareQuorumMessage.PrepareMessage p ∈ e.prepare_quorum)
    (hg1 : PBFT.prepare_guard s.quorum_size e = false)
    (hg2 : PBFT.commit_guard s.quorum_size e = false) :
    s.handle_message (PBFT.PBFTMessage.Prepare p) t = some (s, none) := by
  rw [handle_prepare_of_log t hig hl]
  unfold PBFT.prepare_body
  rw [prepare_insert_mem hm, mapInsert_self hl]
  exact update_prediactes_stable hl hg1 hg2 t

/-- Delivering a Commit that is already in the stored entry, with both
guards false, changes nothing and emits nothing. -/
theorem handle_commit_stable {s : PBFT.ReplicaState} {c : PBFT.CommitMessage}
    {e : PBFT.LogEntry} (t : Time)
    (hig : s.can_ignore_message (PBFT.PBFTMessage.Commit c) = false)
    (hl : s.log c.c_req.operation = some e)
    (hm : c ∈ e.commit_quorum)
    (hg1 : PBFT.prepare_guard s.quorum_size e = false)
    (hg2 : PBFT.commit_guard s.quorum_size e = false) :
    s.handle_message (PBFT.PBFTMessage.Commit c) t = some (s, none) := by
  rw [handle_commit_of_log t hig hl]
  unfold PBFT.commit_body
  rw [commit_insert_mem hm, mapInsert_self hl]
  exact update_prediactes_stable hl hg1 hg2 t

/-- Re-delivering a PBFT Prepare is a no-op: the second delivery leaves the
state unchanged and produces no output. -/
theorem pbft_prepare_redelivery {s : PBFT.ReplicaState} {p : PBFT.PrepareMessage}
    {t : Time} {s' : PBFT.ReplicaState} {o : Option PBFT.Output}
    (h : s.handle_message (PBFT.PBFTMessage.Prepare p) t = some (s', o)) :
    s'.handle_message (PBFT.PBFTMessage.Prepare p) t = some (s', none) := by
  cases hig : s.can_ignore_message (PBFT.PBFTMessage.Prepare p) with
  | true =>
    simp only [PBFT.ReplicaState.handle_message, hig, if_true, Option.some.injEq,
      Prod.mk.injEq] at h
    obtain ⟨hs, -⟩ := h
    rw [← hs]
    simp [PBFT.ReplicaState.handle_message, hig]
  | false =>
    simp only [PBFT.ReplicaState.handle_message, hig, Bool.false_eq_true, if_false,
      PBFT.ReplicaState.handle_prepare_message] at h
    cases hl : s.log p.c_req.operation with
    | none =>
      simp only [hl, Option.some.injEq, Prod.mk.injEq] at h
      obtain ⟨hs, -⟩ := h
      rw [← hs]
      refine handle_prepare_stable t (by exact hig) (by exact mapInsert_eq _ _ _)
        ?_ ?_ ?_
      · simp [PBFT.prepare_insert, PBFT.LogEntry.new, hsInsert]
      · simp [PBFT.prepare_guard, PBFT.LogEntry.has_prepare_quorum_of,
          PBFT.LogEntry.has_pre_prepare_message, PBFT.prepare_insert,
          PBFT.LogEntry.new, hsInsert]
      · simp [PBFT.commit_guard, PBFT.prepare_insert, PBFT.LogEntry.new]
    | some e0 =>
      simp only [hl, PBFT.prepare_body, PBFT.ReplicaState.update_prediactes,
        mapInsert_eq, Option.some.injEq, Prod.mk.injEq] at h
      obtain ⟨hs, -⟩ := h
      by_cases hgc : PBFT.commit_guard s.quorum_size
          (PBFT.prepared_stage s.quorum_size s.id s.peers
            (PBFT.prepare_insert p e0) []).1 = true
      · simp only [PBFT.committed_stage, hgc, if_true] at hs
        rw [← hs]
        simp [PBFT.ReplicaState.handle_message, PBFT.ReplicaState.can_ignore_message,
          mem_hsInsert_self]
      · rw [Bool.not_eq_true] at hgc
        rw [committed_stage_not_fire _ _ hgc] at hs
        rw [← hs]
        refine handle_prepare_stable t (by exact hig) (by exact mapInsert_eq _ _ _)
          ?_ ?_ ?_
        · rw [prepared_stage_pq]
          exact (by exact mem_hsInsert_self _ _)
        · exact prepare_guard_after_stage s.quorum_size s.id s.peers _ []
        · exact hgc

/-- Re-delivering a PBFT Commit is a no-op. -/
theorem pbft_commit_redelivery {s : PBFT.ReplicaState} {c : PBFT.CommitMessage}
    {t : Time} {s' : PBFT.ReplicaState} {o : Option PBFT.Output}
    (h : s.handle_message (PBFT.PBFTMessage.Commit c) t = some (s', o)) :
    s'.handle_message (PBFT.PBFTMessage.Commit c) t = some (s', none) := by
  cases hig : s.can_ignore_message (PBFT.PBFTMessage.Commit c) with
  | true =>
    simp only [PBFT.ReplicaState.handle_message, hig, if_true, Option.some.injEq,
      Prod.mk.injEq] at h
    obtain ⟨hs, -⟩ := h
    rw [← hs]
    simp [PBFT.ReplicaState.handle_message, hig]
  | false =>
    simp only [PBFT.ReplicaState.handle_message, hig, Bool.false_eq_true, if_false,
      PBFT.ReplicaState.handle_commit_message] at h
    cases hl : s.log c.c_req.operation with
    | none =>
      simp only [hl, Option.some.injEq, Prod.mk.injEq] at h
      obtain ⟨hs, -⟩ := h
      rw [← hs]
      refine handle_commit_stable t (by exact hig) (by exact mapInsert_eq _ _ _)
        ?_ ?_ ?_
      · simp [PBFT.commit_insert, PBFT.LogEntry.new, hsInsert]
      · simp [PBFT.prepare_guard, PBFT.LogEntry.has_prepare_quorum_of,
          PBFT.LogEntry.has_pre_prepare_message, PBFT.commit_insert,
          PBFT.LogEntry.new, hsInsert]
      · simp [PBFT.commit_guard, PBFT.commit_insert, PBFT.LogEntry.new]
    | some e0 =>
      simp only [hl, PBFT.commit_body, PBFT.ReplicaState.update_prediactes,
        mapInsert_eq, Option.some.injEq, Prod.mk.injEq] at h
      obtain ⟨hs, -⟩ := h
      by_cases hgc : PBFT.commit_guard s.quorum_size
          (PBFT.prepared_stage s.quorum_size s.id s.peers
            (PBFT.commit_insert c e0) []).1 = true
      · simp only [PBFT.committed_stage, hgc, if_true] at hs
        rw [← hs]
        simp [PBFT.ReplicaState.handle_message, PBFT.ReplicaState.can_ignore_message,
          mem_hsInsert_self]
      · rw [Bool.not_eq_true] at hgc
        rw [committed_stage_not_fire _ _ hgc] at hs
        rw [← hs]
        refine handle_commit_stable t (by exact hig) (by exact mapInsert_eq _ _ _)
          ?_ ?_ ?_
        · exact prepared_stage_cq_mem _ _ _ [] (by exact mem_hsInsert_self _ _)
        · exact prepare_guard_after_stage s.quorum_size s.id s.peers _ []
        · exact hgc

/-- `gc_entry` is a no-op when the entry is already gone and the operation
already recorded. -/
theorem gc_entry_self {s : Zyzzyva.State} {k : Nat} (hl : s.log k = none)
    (hm : k ∈ s.cl_reqs) :
    s.gc_entry k = s := by
  unfold Zyzzyva.State.gc_entry
  rw [mapRemove_of_none hl, hsInsert_of_mem hm]

/-- Delivering a LocalCommit whose sender is already counted, when a firing
guard would only garbage collect an already collected operation, changes
nothing and emits nothing. -/
theorem handle_local_commit_stable {s : Zyzzyva.State} {m : Zyzzyva.LocalCommit}
    {e : Zyzzyva.LogEntry} (t : Time)
    (hig : s.can_ignore_message (Zyzzyva.ZyzzyvaMessage.LocalCommit m) = false)
    (hl : s.log m.c_req.operation = some e)
    (hm : m.sender_id ∈ e.local_commits)
    (hgc : (decide (s.quorum_size ≤ e.local_commits.length) && !e.completed) = true →
      s.log e.c_req.operation = none ∧ e.c_req.operation ∈ s.cl_reqs) :
    s.handle_message (Zyzzyva.ZyzzyvaMessage.LocalCommit m) t = some (s, none) := by
  simp only [Zyzzyva.State.handle_message, hig, Bool.false_eq_true, if_false,
    Zyzzyva.State.handle_local_commit, hl, hsInsert_of_mem hm, mapInsert_self hl]
  by_cases hG : (decide (s.quorum_size ≤ e.local_commits.length) && !e.completed) = true
  · obtain ⟨hnone, hmem⟩ := hgc hG
    simp only [hG, if_true, gc_entry_self hnone hmem]
  · simp only [Bool.not_eq_true] at hG
    simp only [hG, Bool.false_eq_true, if_false]

/-- Delivering a SpeculativeResponse that is already in the certificate of a
non-timed-out entry, when a full certificate would only garbage collect an
already collected operation, changes nothing and emits nothing. -/
theorem handle_spec_response_stable {s : Zyzzyva.State} {m : Zyzzyva.SpeculativeResponse}
    {e : Zyzzyva.LogEntry} (t : Time)
    (hig : s.can_ignore_message (Zyzzyva.ZyzzyvaMessage.SpeculativeResponse m) = false)
    (hr : s.role = Zyzzyva.Role.Client)
    (hl : s.log m.c_req.operation = some e)
    (hm : m ∈ e.commit_certificate)
    (hto : e.timed_out = false)
    (hgc : e.commit_certificate.length = s.num_of_nodes →
      s.log e.c_req.operation = none ∧ e.c_req.operation ∈ s.cl_reqs) :
    s.handle_message (Zyzzyva.ZyzzyvaMessage.SpeculativeResponse m) t = some (s, none) := by
  obtain ⟨sid, slog, scl, snum, scv, sns, srole, speers, scid, sqs, slcs⟩ := s
  obtain ⟨ecr, evw, esq, ecc, elc, ese, ecm, ecp, eto⟩ := e
  dsimp only at hig hr hl hm hto hgc ⊢
  subst hr
  subst hto
  simp only [Zyzzyva.State.handle_message, hig, Bool.false_eq_true, if_false,
    Zyzzyva.State.handle_speculative_response, hl, hsInsert_of_mem hm,
    mapInsert_self hl, if_false]
  by_cases hF : ecc.length = snum
  · obtain ⟨hnone, hmem⟩ := hgc hF
    have hgc2 : Zyzzyva.State.gc_entry
        ⟨sid, slog, scl, snum, scv, sns, Zyzzyva.Role.Client, speers, scid, sqs, slcs⟩
        ecr.operation =
        ⟨sid, slog, scl, snum, scv, sns, Zyzzyva.Role.Client, speers, scid, sqs, slcs⟩ :=
      gc_entry_self hnone hmem
    simp only [hF, if_true, hgc2]
  · simp only [hF, if_false]

/-- Re-delivering a Zyzzyva LocalCommit is a no-op. -/
theorem zyzzyva_local_commit_redelivery {s : Zyzzyva.State} {m : Zyzzyva.LocalCommit}
    {t : Time} {s' : Zyzzyva.State} {o : Option Zyzzyva.Output}
    (h : s.handle_message (Zyzzyva.ZyzzyvaMessage.LocalCommit m) t = some (s', o)) :
    s'.handle_message (Zyzzyva.ZyzzyvaMessage.LocalCommit m) t = some (s', none) := by
  cases hig : s.can_ignore_message (Zyzzyva.ZyzzyvaMessage.LocalCommit m) with
  | true =>
    simp only [Zyzzyva.State.handle_message, hig, if_true, Option.some.injEq,
      Prod.mk.injEq] at h
    obtain ⟨hs, -⟩ := h
    rw [← hs]
    simp [Zyzzyva.State.handle_message, hig]
  | false =>
    have hnm : m.c_req.operation ∉ s.cl_reqs := by
      intro hmem
      simp [Zyzzyva.State.can_ignore_message, hmem] at hig
    simp only [Zyzzyva.State.handle_message, hig, Bool.false_eq_true, if_false,
      Zyzzyva.State.handle_local_commit] at h
    cases hl : s.log m.c_req.operation with
    | none => simp [hl] at h
    | some e =>
      simp only [hl] at h
      by_cases hG : (decide (s.quorum_size ≤ (hsInsert e.local_commits m.sender_id).length) &&
          !e.completed) = true
      · simp only [hG, if_true, Option.some.injEq, Prod.mk.injEq,
          Zyzzyva.State.gc_entry] at h
        obtain ⟨hs, -⟩ := h
        by_cases hop : m.c_req.operation = e.c_req.operation
        · rw [← hs]
          simp [Zyzzyva.State.handle_message, Zyzzyva.State.can_ignore_message,
            hop, mem_hsInsert_self]
        · have hcl : s'.cl_reqs = hsInsert s.cl_reqs e.c_req.operation := by rw [← hs]
          have hlog' : s'.log = mapRemove (mapInsert s.log m.c_req.operation
              { e with local_commits := hsInsert e.local_commits m.sender_id })
              e.c_req.operation := by rw [← hs]
          have hq : s'.quorum_size = s.quorum_size := by rw [← hs]
          have hig2 : s'.can_ignore_message (Zyzzyva.ZyzzyvaMessage.LocalCommit m) = false := by
            simp [Zyzzyva.State.can_ignore_message, hcl, mem_hsInsert_iff, hop, hnm]
          have hl2 : s'.log m.c_req.operation = some
              { e with local_commits := hsInsert e.local_commits m.sender_id } := by
            rw [hlog', mapRemove_ne _ _ hop]
            exact mapInsert_eq _ _ _
          refine handle_local_commit_stable t hig2 hl2 (mem_hsInsert_self _ _) ?_
          intro _
          constructor
          · rw [hlog']
            exact mapRemove_eq _ _
          · rw [hcl]
            exact mem_hsInsert_self _ _
      · simp only [Bool.not_eq_true] at hG
        simp only [hG, Bool.false_eq_true, if_false, Option.some.injEq,
          Prod.mk.injEq] at h
        obtain ⟨hs, -⟩ := h
        have hcl : s'.cl_reqs = s.cl_reqs := by rw [← hs]
        have hlog' : s'.log = mapInsert s.log m.c_req.operation
            { e with local_commits := hsInsert e.local_commits m.sender_id } := by
          rw [← hs]
        have hq : s'.quorum_size = s.quorum_size := by rw [← hs]
        have hig2 : s'.can_ignore_message (Zyzzyva.ZyzzyvaMessage.LocalCommit m) = false := by
          simp [Zyzzyva.State.can_ignore_message, hcl, hnm]
        have hl2 : s'.log m.c_req.operation = some
            { e with local_commits := hsInsert e.local_commits m.sender_id } := by
          rw [hlog']
          exact mapInsert_eq _ _ _
        refine handle_local_commit_stable t hig2 hl2 (mem_hsInsert_self _ _) ?_
        intro hGtrue
        rw [hq] at hGtrue
        have hGtrue' : (decide (s.quorum_size ≤
            (hsInsert e.local_commits m.sender_id).length) && !e.completed) = true := hGtrue
        rw [hGtrue'] at hG
        cases hG

/-- Re-delivering a Zyzzyva SpeculativeResponse is a no-op. -/
theorem zyzzyva_spec_response_redelivery {s : Zyzzyva.State}
    {m : Zyzzyva.SpeculativeResponse} {t : Time} {s' : Zyzzyva.State}
    {o : Option Zyzzyva.Output}
    (h : s.handle_message (Zyzzyva.ZyzzyvaMessage.SpeculativeResponse m) t = some (s', o)) :
    s'.handle_message (Zyzzyva.ZyzzyvaMessage.SpeculativeResponse m) t = some (s', none) := by
  cases hig : s.can_ignore_message (Zyzzyva.ZyzzyvaMessage.SpeculativeResponse m) with
  | true =>
    simp only [Zyzzyva.State.handle_message, hig, if_true, Option.some.injEq,
      Prod.mk.injEq] at h
    obtain ⟨hs, -⟩ := h
    rw [← hs]
    simp [Zyzzyva.State.handle_message, hig]
  | false =>
    have hnm : m.c_req.operation ∉ s.cl_reqs := by
      intro hmem
      simp [Zyzzyva.State.can_ignore_message, hmem] at hig
    simp only [Zyzzyva.State.handle_message, hig, Bool.false_eq_true, if_false,
      Zyzzyva.State.handle_speculative_response] at h
    cases hr : s.role with
    | Primary => simp [hr] at h
    | Backup => simp [hr] at h
    | Client =>
      simp only [hr] at h
      cases hl : s.log m.c_req.operation with
      | none => simp [hl] at h
      | some e =>
        simp only [hl] at h
        by_cases hto : e.timed_out = true
        · simp only [hto, if_true, Option.some.injEq, Prod.mk.injEq] at h
          obtain ⟨hs, -⟩ := h
          rw [← hs]
          simp [Zyzzyva.State.handle_message, hig, Zyzzyva.State.handle_speculative_response,
            hr, hl, hto]
        · simp only [Bool.not_eq_true] at hto
          simp only [hto, Bool.false_eq_true, if_false] at h
          by_cases hF : ((hsInsert e.commit_certificate m).length = s.num_of_nodes)
          · simp only [hF, if_true, Option.some.injEq, Prod.mk.injEq,
              Zyzzyva.State.gc_entry] at h
            obtain ⟨hs, -⟩ := h
            by_cases hop : m.c_req.operation = e.c_req.operation
            · rw [← hs]
              simp [Zyzzyva.State.handle_message, Zyzzyva.State.can_ignore_message,
                hop, mem_hsInsert_self]
            · have hcl : s'.cl_reqs = hsInsert s.cl_reqs e.c_req.operation := by rw [← hs]
              have hlog' : s'.log = mapRemove (mapInsert s.log m.c_req.operation
                  { e with commit_certificate := hsInsert e.commit_certificate m,
                           timed_out := false })
                  e.c_req.operation := by rw [← hs]
              have hrr : s'.role = Zyzzyva.Role.Client := by rw [← hs]
              have hn : s'.num_of_nodes = s.num_of_nodes := by rw [← hs]
              have hig2 : s'.can_ignore_message
                  (Zyzzyva.ZyzzyvaMessage.SpeculativeResponse m) = false := by
                simp [Zyzzyva.State.can_ignore_message, hcl, mem_hsInsert_iff, hop, hnm]
              have hl2 : s'.log m.c_req.operation = some
                  { e with commit_certificate := hsInsert e.commit_certificate m,
                           timed_out := false } := by
                rw [hlog', mapRemove_ne _ _ hop]
                exact mapInsert_eq _ _ _
              refine handle_spec_response_stable t hig2 hrr hl2
                (by exact mem_hsInsert_self _ _) rfl ?_
              intro _
              constructor
              · rw [hlog']
                exact mapRemove_eq _ _
              · rw [hcl]
                exact mem_hsInsert_self _ _
          · simp only [hF, if_false, Option.some.injEq, Prod.mk.injEq] at h
            obtain ⟨hs, -⟩ := h
            have hcl : s'.cl_reqs = s.cl_reqs := by rw [← hs]
            have hlog' : s'.log = mapInsert s.log m.c_req.operation
                { e with commit_certificate := hsInsert e.commit_certificate m,
                         timed_out := false } := by
              rw [← hs]
            have hrr : s'.role = Zyzzyva.Role.Client := by rw [← hs]
            have hn : s'.num_of_nodes = s.num_of_nodes := by rw [← hs]
            have hig2 : s'.can_ignore_message
                (Zyzzyva.ZyzzyvaMessage.SpeculativeResponse m) = false := by
              simp [Zyzzyva.State.can_ignore_message, hcl, hnm]
            have hl2 : s'.log m.c_req.operation = some
                { e with commit_certificate := hsInsert e.commit_certificate m,
                         timed_out := false } := by
              rw [hlog']
              exact mapInsert_eq _ _ _
            refine handle_spec_response_stable t hig2 hrr hl2
              (by exact mem_hsInsert_self _ _) rfl ?_
            intro hFull
            rw [hn] at hFull
            have hFull' : (hsInsert e.commit_certificate m).length = s.num_of_nodes := hFull
            exact absurd hFull' hF

/-! ## Claim C3, counterexample -/

/-- C3 fails as stated: delivering the same message twice is not idempotent.
Replaying the ClientRequest `c3m` to the fresh primary `c3s0` assigns a fresh
sequence number on the second delivery (`next_seq_num` goes from 1 to 2) and
re-broadcasts PrePrepare, so the second delivery neither preserves the state
nor produces empty output. -/
theorem idempotence_counterexample :
    c3s1.handle_message c3m ⟨0⟩ ≠ some (c3s1, none) := by
  intro h
  have h2 : (c3s1.handle_message c3m ⟨0⟩).map (fun p => p.1.next_seq_num) =
      (some ((c3s1, none) : PBFT.ReplicaState × Option PBFT.Output)).map
        (fun p => p.1.next_seq_num) :=
    congrArg _ h
  have hL : (c3s1.handle_message c3m ⟨0⟩).map (fun p => p.1.next_seq_num) =
      some 2 := rfl
  have hR : (some ((c3s1, none) : PBFT.ReplicaState × Option PBFT.Output)).map
      (fun p => p.1.next_seq_num) = some 1 := rfl
  rw [hL, hR] at h2
  cases h2

/-! ## Claim C3, amended -/

/-- C3 (amended): idempotence holds for the quorum-vote messages — PBFT
Prepare and Commit, Zyzzyva LocalCommit and SpeculativeResponse: whenever a
first delivery succeeds and produces state `s'`, delivering the identical
message again leaves the state equal to `s'` and returns no output.  It does
not hold for the remaining message kinds: a replayed PBFT ClientRequest
assigns a fresh sequence number (the counterexample), a replayed PrePrepare
re-broadcasts Prepare, a replayed Zyzzyva ClientRequest resets the entry and
re-emits, a replayed OrderRequest panics, and replayed ClientTimeout and
Commit re-broadcast their messages. -/
theorem idempotent_redelivery_for_votes :
    (∀ (s : PBFT.ReplicaState) (p : PBFT.PrepareMessage) (t : Time)
       (s' : PBFT.ReplicaState) (o : Option PBFT.Output),
       s.handle_message (PBFT.PBFTMessage.Prepare p) t = some (s', o) →
       s'.handle_message (PBFT.PBFTMessage.Prepare p) t = some (s', none)) ∧
    (∀ (s : PBFT.ReplicaState) (c : PBFT.CommitMessage) (t : Time)
       (s' : PBFT.ReplicaState) (o : Option PBFT.Output),
       s.handle_message (PBFT.PBFTMessage.Commit c) t = some (s', o) →
       s'.handle_message (PBFT.PBFTMessage.Commit c) t = some (s', none)) ∧
    (∀ (z : Zyzzyva.State) (m : Zyzzyva.LocalCommit) (t : Time)
       (z' : Zyzzyva.State) (o : Option Zyzzyva.Output),
       z.handle_message (Zyzzyva.ZyzzyvaMessage.LocalCommit m) t = some (z', o) →
       z'.handle_message (Zyzzyva.ZyzzyvaMessage.LocalCommit m) t = some (z', none)) ∧
    (∀ (z : Zyzzyva.State) (m : Zyzzyva.SpeculativeResponse) (t : Time)
       (z' : Zyzzyva.State) (o : Option Zyzzyva.Output),
       z.handle_message (Zyzzyva.ZyzzyvaMessage.SpeculativeResponse m) t = some (z', o) →
       z'.handle_message (Zyzzyva.ZyzzyvaMessage.SpeculativeResponse m) t = some (z', none)) :=
  ⟨fun _ _ _ _ _ h => pbft_prepare_redelivery h,
   fun _ _ _ _ _ h => pbft_commit_redelivery h,
   fun _ _ _ _ _ h => zyzzyva_local_commit_redelivery h,
   fun _ _ _ _ _ h => zyzzyva_spec_response_redelivery h⟩

/-- Witness for the amended C3: a first Prepare delivery to the fresh backup
`c3w0` succeeds, and re-delivery returns the same state with no output;
likewise a SpeculativeResponse re-delivered to the client `c5s`. -/
theorem idempotent_redelivery_witness :
    c3w1.handle_message c3mp ⟨0⟩ = some (c3w1, none) ∧
    c3z1.handle_message (Zyzzyva.ZyzzyvaMessage.SpeculativeResponse c3zm) ⟨0⟩ =
      some (c3z1, none) :=
  ⟨idempotent_redelivery_for_votes.1 c3w0 ⟨⟨7, 0⟩, 1, 1, 2⟩ ⟨0⟩ c3w1 c3w1o rfl,
   idempotent_redelivery_for_votes.2.2.2 c5s c3zm ⟨0⟩ c3z1 c3z1o rfl⟩

/-! ## Helper lemmas for the Zyzzyva completed-flag invariant -/

theorem logCF_insert {L : Nat → Option Zyzzyva.LogEntry} {k : Nat} {e : Zyzzyva.LogEntry}
    (h : ∀ op e', L op = some e' → e'.completed = false) :
    ∀ op e', mapInsert L k e op = some e' → e.completed = false → e'.completed = false := by
  intro op e' hle he
  by_cases hop : op = k
  · subst hop
    rw [mapInsert_eq] at hle
    cases hle
    exact he
  · rw [mapInsert_ne _ _ _ hop] at hle
    exact h op e' hle

theorem logCF_remove {L : Nat → Option Zyzzyva.LogEntry} {k : Nat}
    (h : ∀ op e', L op = some e' → e'.completed = false) :
    ∀ op e', mapRemove L k op = some e' → e'.completed = false := by
  intro op e' hle
  by_cases hop : op = k
  · subst hop
    rw [mapRemove_eq] at hle
    cases hle
  · rw [mapRemove_ne _ _ hop] at hle
    exact h op e' hle

/-- Every Zyzzyva handler preserves the invariant that no stored log entry
has `completed = true`: both `entry.completed = true` assignments are
commented out in the source, entries are created with `completed = false`,
and completion is recorded solely by `gc_entry`. -/
theorem handle_message_preserves_completedFree
    {s : Zyzzyva.State} {m : Zyzzyva.ZyzzyvaMessage} {t : Time}
    {s' : Zyzzyva.State} {o : Option Zyzzyva.Output}
    (hinv : Zyzzyva.completedFree s)
    (hh : s.handle_message m t = some (s', o)) :
    Zyzzyva.completedFree s' := by
  by_cases hig : s.can_ignore_message m = true
  · simp only [Zyzzyva.State.handle_message, hig, if_true, Option.some.injEq,
      Prod.mk.injEq] at hh
    obtain ⟨hs', -⟩ := hh
    rw [← hs']
    exact hinv
  · simp only [Zyzzyva.State.handle_message, hig, Bool.false_eq_true, if_false] at hh
    cases m with
    | ClientRequest mc =>
      cases hr : s.role with
      | Client =>
        simp only [Zyzzyva.State.handle_client_request, hr, Option.some.injEq,
          Prod.mk.injEq] at hh
        obtain ⟨hs', -⟩ := hh
        intro op e' hle
        rw [← hs'] at hle
        dsimp only at hle
        exact logCF_insert hinv op e' hle rfl
      | Primary =>
        simp only [Zyzzyva.State.handle_client_request, hr, Option.some.injEq,
          Prod.mk.injEq] at hh
        obtain ⟨hs', -⟩ := hh
        intro op e' hle
        rw [← hs'] at hle
        dsimp only at hle
        exact logCF_insert hinv op e' hle rfl
      | Backup => simp [Zyzzyva.State.handle_client_request, hr] at hh
    | ClientTimeout mc =>
      cases hr : s.role with
      | Primary => simp [Zyzzyva.State.handle_client_timeout, hr] at hh
      | Backup => simp [Zyzzyva.State.handle_client_timeout, hr] at hh
      | Client =>
        simp only [Zyzzyva.State.handle_client_timeout, hr] at hh
        cases hl : s.log mc.req_id with
        | none =>
          simp only [hl, Option.some.injEq, Prod.mk.injEq] at hh
          obtain ⟨hs', -⟩ := hh
          rw [← hs']
          exact hinv
        | some e =>
          rw [hl] at hh
          have hce : ({ e with timed_out := true } : Zyzzyva.LogEntry).completed = false :=
            hinv mc.req_id e hl
          by_cases hg : (decide (s.quorum_size ≤ e.commit_certificate.length) &&
              decide (e.commit_certificate.length < s.peers.length)) = true
          · simp only [hg, if_true, Option.some.injEq, Prod.mk.injEq] at hh
            obtain ⟨hs', -⟩ := hh
            intro op e' hle
            rw [← hs'] at hle
            dsimp only at hle
            exact logCF_insert hinv op e' hle hce
          · simp only [Bool.not_eq_true] at hg
            simp only [hg, Bool.false_eq_true, if_false, Option.some.injEq,
              Prod.mk.injEq] at hh
            obtain ⟨hs', -⟩ := hh
            intro op e' hle
            rw [← hs'] at hle
            dsimp only at hle
            exact logCF_insert hinv op e' hle hce
    | OrderRequest mo =>
      cases hr : s.role with
      | Client => simp [Zyzzyva.State.handle_order_request, hr] at hh
      | Primary => simp [Zyzzyva.State.handle_order_request, hr] at hh
      | Backup =>
        simp only [Zyzzyva.State.handle_order_request, hr] at hh
        cases hl : s.log mo.c_req.operation with
        | some e => simp [hl] at hh
        | none =>
          simp only [hl, Option.some.injEq, Prod.mk.injEq] at hh
          obtain ⟨hs', -⟩ := hh
          intro op e' hle
          rw [← hs'] at hle
          dsimp only at hle
          exact logCF_insert hinv op e' hle rfl
    | SpeculativeResponse msr =>
      cases hr : s.role with
      | Primary => simp [Zyzzyva.State.handle_speculative_response, hr] at hh
      | Backup => simp [Zyzzyva.State.handle_speculative_response, hr] at hh
      | Client =>
        simp only [Zyzzyva.State.handle_speculative_response, hr] at hh
        cases hl : s.log msr.c_req.operation with
        | none => simp [hl] at hh
        | some e =>
          rw [hl] at hh
          by_cases hto : e.timed_out = true
          · simp only [hto, if_true, Option.some.injEq, Prod.mk.injEq] at hh
            obtain ⟨hs', -⟩ := hh
            rw [← hs']
            exact hinv
          · simp only [Bool.not_eq_true] at hto
            have hce : ({ e with commit_certificate := hsInsert e.commit_certificate msr } : Zyzzyva.LogEntry).completed = false :=
              hinv msr.c_req.operation e hl
            simp only [hto, Bool.false_eq_true, if_false] at hh
            by_cases hfull : (({ e with commit_certificate := hsInsert e.commit_certificate msr } : Zyzzyva.LogEntry).commit_certificate.length = s.num_of_nodes)
            · simp only [hfull, if_true, Option.some.injEq, Prod.mk.injEq] at hh
              obtain ⟨hs', -⟩ := hh
              intro op e' hle
              rw [← hs'] at hle
              simp only [Zyzzyva.State.gc_entry] at hle
              exact logCF_remove (fun op2 e2 h2 => logCF_insert hinv op2 e2 h2 (by exact hinv msr.c_req.operation e hl)) op e' hle
            · simp only [hfull, if_false, Option.some.injEq, Prod.mk.injEq] at hh
              obtain ⟨hs', -⟩ := hh
              intro op e' hle
              rw [← hs'] at hle
              dsimp only at hle
              exact logCF_insert hinv op e' hle (hinv msr.c_req.operation e hl)
    | Commit mcc =>
      cases hr : s.role with
      | Client => simp [Zyzzyva.State.handle_commit, hr] at hh
      | Primary =>
        simp only [Zyzzyva.State.handle_commit, hr] at hh
        cases hl : s.log mcc.req_id with
        | some e =>
          simp only [hl, Option.some.injEq, Prod.mk.injEq] at hh
          obtain ⟨hs', -⟩ := hh
          intro op e' hle
          rw [← hs'] at hle
          simp only [Zyzzyva.State.gc_entry] at hle
          exact logCF_remove (fun op2 e2 h2 => logCF_insert hinv op2 e2 h2 (by exact hinv mcc.req_id e hl)) op e' hle
        | none =>
          rw [hl] at hh
          cases hcert : mcc.certificate with
          | nil => simp [hcert] at hh
          | cons a as =>
            simp only [hcert, Option.some.injEq, Prod.mk.injEq] at hh
            obtain ⟨hs', -⟩ := hh
            intro op e' hle
            rw [← hs'] at hle
            simp only [Zyzzyva.State.gc_entry] at hle
            exact logCF_remove hinv op e' hle
      | Backup =>
        simp only [Zyzzyva.State.handle_commit, hr] at hh
        cases hl : s.log mcc.req_id with
        | some e =>
          simp only [hl, Option.some.injEq, Prod.mk.injEq] at hh
          obtain ⟨hs', -⟩ := hh
          intro op e' hle
          rw [← hs'] at hle
          simp only [Zyzzyva.State.gc_entry] at hle
          exact logCF_remove (fun op2 e2 h2 => logCF_insert hinv op2 e2 h2 (by exact hinv mcc.req_id e hl)) op e' hle
        | none =>
          rw [hl] at hh
          cases hcert : mcc.certificate with
          | nil => simp [hcert] at hh
          | cons a as =>
            simp only [hcert, Option.some.injEq, Prod.mk.injEq] at hh
            obtain ⟨hs', -⟩ := hh
            intro op e' hle
            rw [← hs'] at hle
            simp only [Zyzzyva.State.gc_entry] at hle
            exact logCF_remove hinv op e' hle
    | LocalCommit mlc =>
      simp only [Zyzzyva.State.handle_local_commit] at hh
      cases hl : s.log mlc.c_req.operation with
      | none => simp [hl] at hh
      | some e =>
        rw [hl] at hh
        have hce : ({ e with local_commits := hsInsert e.local_commits mlc.sender_id } : Zyzzyva.LogEntry).completed = false :=
          hinv mlc.c_req.operation e hl
        by_cases hg : (decide (s.quorum_size ≤ (hsInsert e.local_commits mlc.sender_id).length) &&
            !({ e with local_commits := hsInsert e.local_commits mlc.sender_id } : Zyzzyva.LogEntry).completed) = true
        · simp only [hg, if_true, Option.some.injEq, Prod.mk.injEq] at hh
          obtain ⟨hs', -⟩ := hh
          intro op e' hle
          rw [← hs'] at hle
          simp only [Zyzzyva.State.gc_entry] at hle
          exact logCF_remove (fun op2 e2 h2 => logCF_insert hinv op2 e2 h2 (by exact hce)) op e' hle
        · simp only [Bool.not_eq_true] at hg
          simp only [hg, Bool.false_eq_true, if_false, Option.some.injEq,
            Prod.mk.injEq] at hh
          obtain ⟨hs', -⟩ := hh
          intro op e' hle
          rw [← hs'] at hle
          dsimp only at hle
          exact logCF_insert hinv op e' hle hce

/-! ## Claim C9 -/

/-- C9: in every Zyzzyva state reachable from a freshly constructed node by
any sequence of `handle_message` deliveries, every log entry has
`completed = false` — no handler ever sets the flag (both assignments are
commented out in the source); completion is recorded only by `gc_entry`,
which removes the entry and inserts its operation into `cl_reqs`. -/
theorem zyzzyva_completed_flag_never_set :
    ∀ s : Zyzzyva.State, Zyzzyva.Reachable s → Zyzzyva.completedFree s := by
  intro s h
  induction h with
  | init id n s0 hnew =>
    unfold Zyzzyva.State.new at hnew
    split at hnew
    · cases hnew
    · cases hnew
      intro op e hle
      cases hle
  | step s0 m t s1 o _ hh ih =>
    exact handle_message_preserves_completedFree ih hh

/-- Witness for C9: a freshly constructed five node client is reachable and
satisfies the invariant. -/
theorem zyzzyva_completed_flag_witness :
    Zyzzyva.completedFree (Zyzzyva.State.init 2 5) :=
  zyzzyva_completed_flag_never_set (Zyzzyva.State.init 2 5)
    (Zyzzyva.Reachable.init 2 5 (Zyzzyva.State.init 2 5) rfl)

/-! ## Claim C5 -/

/-- C5: a Zyzzyva client holding a log entry for `req_id` handles a
`ClientTimeout{req_id}` by marking the entry `timed_out` and then broadcasts
`Commit{req_id, snapshot of the commit certificate, self}` to all `n_rep`
replicas exactly when `quorum_size ≤ |commit_certificate| < n_rep`
(hypothesis `hp` identifies the peer list length with the internal replica
count `num_of_nodes`, which holds for every constructed client); otherwise no
message is returned, and a `timed-out` result record is written exactly when
`|commit_certificate| < quorum_size`. -/
theorem client_timeout_marks_and_broadcasts :
    ∀ (s : Zyzzyva.State) (msg : Zyzzyva.ClientTimeout) (t : Time) (e : Zyzzyva.LogEntry),
      s.role = Zyzzyva.Role.Client →
      s.log msg.req_id = some e →
      s.peers.length = s.num_of_nodes →
      s.handle_message (Zyzzyva.ZyzzyvaMessage.ClientTimeout msg) t =
        some ({ s with log := mapInsert s.log msg.req_id { e with timed_out := true } },
          if s.quorum_size ≤ e.commit_certificate.length ∧
              e.commit_certificate.length < s.num_of_nodes then
            some (Zyzzyva.create_peer_broadcast_output
              (Zyzzyva.ZyzzyvaMessage.Commit
                { req_id := msg.req_id, certificate := e.commit_certificate,
                  sender_id := s.id }) s.peers)
          else none) ∧
      s.handle_client_timeout_records msg =
        some (if e.commit_certificate.length < s.quorum_size then [msg.req_id] else []) := by
  intro s msg t e hrole hlog hp
  constructor
  · simp only [Zyzzyva.State.handle_message, Zyzzyva.State.can_ignore_message,
      Bool.false_eq_true, if_false, Zyzzyva.State.handle_client_timeout, hrole, hlog]
    by_cases hb : s.quorum_size ≤ e.commit_certificate.length ∧
        e.commit_certificate.length < s.num_of_nodes
    · rw [if_pos hb]
      have hg : (decide (s.quorum_size ≤ e.commit_certificate.length) &&
          decide (e.commit_certificate.length < s.peers.length)) = true := by
        rw [hp]; simp [hb.1, hb.2]
      simp only [hg, if_true]
    · rw [if_neg hb]
      have hg : (decide (s.quorum_size ≤ e.commit_certificate.length) &&
          decide (e.commit_certificate.length < s.peers.length)) = false := by
        rw [hp]
        by_cases h1 : s.quorum_size ≤ e.commit_certificate.length
        · by_cases h2 : e.commit_certificate.length < s.num_of_nodes
          · exact absurd ⟨h1, h2⟩ hb
          · simp [h2]
        · simp [h1]
      simp only [hg, Bool.false_eq_true, if_false]
  · simp only [Zyzzyva.State.handle_client_timeout_records, hrole, hlog]
    by_cases hsmall : e.commit_certificate.length < s.quorum_size
    · have hg : (decide (s.quorum_size ≤ e.commit_certificate.length) &&
          decide (e.commit_certificate.length < s.peers.length)) = false := by
        simp [Nat.not_le.mpr hsmall]
      simp only [hg, Bool.false_eq_true, if_false]
      simp [hsmall]
    · rw [if_neg hsmall]
      by_cases hg : (decide (s.quorum_size ≤ e.commit_certificate.length) &&
          decide (e.commit_certificate.length < s.peers.length)) = true
      · simp only [hg, if_true]
      · simp only [Bool.not_eq_true] at hg
        simp only [hg, Bool.false_eq_true, if_false]
        simp [hsmall]

/-- Witness for C5: the concrete five node client `c5s` (quorum 3, four
replicas) holding the three-vote certificate `c5e` broadcasts the slow-path
Commit on timeout and writes no `timed-out` record. -/
theorem client_timeout_witness :
    c5s.handle_message (Zyzzyva.ZyzzyvaMessage.ClientTimeout ⟨7⟩) ⟨9⟩ =
      some ({ c5s with log := mapInsert c5s.log 7 { c5e with timed_out := true } },
        if c5s.quorum_size ≤ c5e.commit_certificate.length ∧
            c5e.commit_certificate.length < c5s.num_of_nodes then
          some (Zyzzyva.create_peer_broadcast_output
            (Zyzzyva.ZyzzyvaMessage.Commit
              { req_id := 7, certificate := c5e.commit_certificate,
                sender_id := c5s.id }) c5s.peers)
        else none) ∧
    c5s.handle_client_timeout_records ⟨7⟩ =
      some (if c5e.commit_certificate.length < c5s.quorum_size then [7] else []) :=
  client_timeout_marks_and_broadcasts c5s ⟨7⟩ ⟨9⟩ c5e (by decide) rfl (by decide)

end BFTSim
